import Mathlib

/-!
# RSSFETCH: the fetch / normalize / aggregate pipeline of `fetch_feeds.js`

A shallow embedding of `src/fetch_feeds.js`.

* JavaScript strings are sequences of UTF-16 code units; a string value is a
  `List Nat` of code-unit values, so that `slice(0, 500)` counts what
  JavaScript counts.  Property names and error messages are only compared
  with fixed names or passed through, and are Lean `String`s.
* The tree returned by `parser.parse(xml)` is a `JVal`: text, number,
  boolean, object (ordered key/value pairs) or array.  The XML parser never
  yields `null` or `undefined` inside the tree; `undefined`, the result of
  reading an absent property, is `none : Option JVal`.
* A network attempt is an `AttemptOutcome` supplied by the environment; the
  environment of one source maps the attempt number to its outcome.
-/

namespace RSSFetch

/-! ## Values -/

/-- A JavaScript string: its UTF-16 code units. -/
abbrev JStr := List Nat

/-- UTF-16 code units of one Unicode scalar value. -/
def utf16Char (c : Char) : List Nat :=
  if c.toNat < 0x10000 then [c.toNat]
  else [0xD800 + (c.toNat - 0x10000) / 0x400, 0xDC00 + (c.toNat - 0x10000) % 0x400]

/-- UTF-16 code units of a text, used to write string values down. -/
def utf16 (s : String) : JStr :=
  (s.toList.map utf16Char).flatten

/-- A value of the parsed XML tree.  Numeric tag values are integers here:
the code only tests them for zero and passes them through. -/
inductive JVal where
  | str (s : JStr)
  | num (n : Int)
  | bool (b : Bool)
  | obj (fields : List (String × JVal))
  | arr (items : List JVal)

namespace JVal

/-- Truthiness of a value (`ToBoolean`): the empty string, `0` and `false`
are falsy, objects and arrays are truthy. -/
def truthy : JVal → Bool
  | str s => !s.isEmpty
  | num n => n != 0
  | bool b => b
  | obj _ => true
  | arr _ => true

/-- Property read `v[k]` for the property names this program reads.  Only an
object of the tree has them.  (`String.prototype.link` makes `"…".link` a
function rather than `undefined`; at its one use, line 55-62, a function
takes the same path as `undefined`.) -/
def get : JVal → String → Option JVal
  | obj fields, k => fields.lookup k
  | _, _ => none

end JVal

/-- Truthiness of a possibly `undefined` value. -/
def truthy : Option JVal → Bool
  | some v => v.truthy
  | none => false

/-- Optional chaining `v?.[k]` (and `v[k]` where `v` may be `undefined` only
behind `?.`). -/
def prop (v : Option JVal) (k : String) : Option JVal :=
  v.bind (fun x => x.get k)

/-- JavaScript `a || b`. -/
def jsOr (a b : Option JVal) : Option JVal :=
  if truthy a then a else b

/-- JavaScript `a || d` where `d` is a literal, so the result is a value. -/
def jsOrD (a : Option JVal) (d : JVal) : JVal :=
  match a with
  | some v => if v.truthy then v else d
  | none => d

/-! ## String operations of the summary and the title -/

/-- Code unit of `<`. -/
def LT_UNIT : Nat := 60

/-- Code unit of `>`. -/
def GT_UNIT : Nat := 62

/-- After `[^>]*`, the closing `>`: the rest of the text behind the first
`>`, if there is one. -/
def skipToClose : JStr → Option JStr
  | [] => none
  | c :: cs => if c = GT_UNIT then some cs else skipToClose cs

/-- Match of `[^>]+>` at the start of a text (the part of `/<[^>]+>/` behind
the `<`): the rest of the text behind the match. -/
def matchTagBody : JStr → Option JStr
  | [] => none
  | c :: cs => if c = GT_UNIT then none else skipToClose cs

/-- The scan of `desc.replace(/<[^>]+>/g, '')`, from the left.  Outside a
match (`inTag = false`) a `<` at which `[^>]+>` matches opens a match and is
dropped, and any other unit is kept; inside a match the units are dropped up
to and including the first `>`, which ends the match. -/
def stripScan : Bool → JStr → JStr
  | _, [] => []
  | false, c :: cs =>
    if c = LT_UNIT ∧ (matchTagBody cs).isSome then stripScan true cs
    else c :: stripScan false cs
  | true, c :: cs =>
    if c = GT_UNIT then stripScan false cs else stripScan true cs

/-- The call `desc.replace(/<[^>]+>/g, '')`: every match of `<[^>]+>` is
removed and the scan resumes behind it. -/
def stripTags (s : JStr) : JStr :=
  stripScan false s

/-- White space and line terminators removed by `String.prototype.trim`. -/
def isJsSpace (c : Nat) : Bool :=
  c = 9 || c = 10 || c = 11 || c = 12 || c = 13 || c = 32 || c = 160 || c = 5760 ||
  (8192 ≤ c && c ≤ 8202) || c = 8232 || c = 8233 || c = 8239 || c = 8287 ||
  c = 12288 || c = 65279

/-- The method `String.prototype.trim`. -/
def trim (s : JStr) : JStr :=
  ((s.dropWhile isJsSpace).reverse.dropWhile isJsSpace).reverse

/-- The call `slice(0, n)`. -/
def slice0 (n : Nat) (s : JStr) : JStr :=
  s.take n

/-! ## The normalizer (lines 40-75) -/

/-- One normalized entry.  `link` and `pubDate` are passed through from the
tree and may be any value. -/
structure RawArticle where
  title : JStr
  link : JVal
  pubDate : JVal
  summary : JStr

/-- Message of the error thrown at line 43. -/
def UNRECOGNIZED : String := "无法识别 RSS/Atom/RDF 格式"

/-- Message of the `TypeError` raised by `title.trim()` at line 74 when
`title` is not a string. -/
def TRIM_TYPE_ERROR : String := "title.trim is not a function"

/-- The test `l['@_rel'] === 'alternate'` of line 58. -/
def relIsAlternate (l : JVal) : Bool :=
  match l.get "@_rel" with
  | some (JVal.str s) => s == utf16 "alternate"
  | _ => false

/-- Lines 49-51: the title before trimming. -/
def titleOf (item : JVal) : JVal :=
  match item.get "title" with
  | some (JVal.str s) => JVal.str s
  | t => jsOrD (prop t "#text") (JVal.str [])

/-- Lines 54-62: the link. -/
def linkOf (item : JVal) : JVal :=
  match item.get "link" with
  | some (JVal.str s) => JVal.str s
  | some (JVal.arr ls) =>
    jsOrD (jsOr (prop (ls.find? relIsAlternate) "@_href") (prop ls.head? "@_href"))
      (JVal.str [])
  | l =>
    match prop l "@_href" with
    | some href => if href.truthy then href else JVal.str []
    | none => JVal.str []

/-- Line 65: the publication date. -/
def pubDateOf (item : JVal) : JVal :=
  jsOrD (jsOr (jsOr (jsOr (item.get "pubDate") (item.get "published")) (item.get "updated"))
    (item.get "dc:date")) (JVal.str [])

/-- Line 69: the value the summary is taken from. -/
def descOf (item : JVal) : JVal :=
  jsOrD (jsOr (jsOr (item.get "description") (item.get "summary")) (item.get "content"))
    (JVal.str [])

/-- Lines 68-72: the summary. -/
def summaryOf (item : JVal) : JStr :=
  match descOf item with
  | JVal.str s => slice0 500 (trim (stripTags s))
  | _ => []

/-- The callback of `map` at lines 47-75.  `title.trim()` raises a
`TypeError` when the title is not a string. -/
def normalizeItem (item : JVal) : Except String RawArticle :=
  match titleOf item with
  | JVal.str s =>
    .ok { title := trim s, link := linkOf item, pubDate := pubDateOf item,
          summary := summaryOf item }
  | _ => .error TRIM_TYPE_ERROR

/-- Line 42: `parsed.rss?.channel || parsed.feed || rdf`. -/
def channelOf (parsed : JVal) : Option JVal :=
  jsOr (jsOr (prop (parsed.get "rss") "channel") (parsed.get "feed")) (parsed.get "rdf:RDF")

/-- Line 46: `channel.item || channel.entry || rdf?.item || []`. -/
def itemsOf (parsed channel : JVal) : JVal :=
  jsOrD (jsOr (jsOr (channel.get "item") (channel.get "entry"))
    (prop (parsed.get "rdf:RDF") "item")) (JVal.arr [])

/-- Line 47: `Array.isArray(items) ? items : [items]`. -/
def asList : JVal → List JVal
  | JVal.arr xs => xs
  | v => [v]

/-- Lines 40-75, from the parsed tree to the article list; an exception is
`Except.error` with its message. -/
def normalize (parsed : JVal) : Except String (List RawArticle) :=
  match channelOf parsed with
  | some channel =>
    if channel.truthy then (asList (itemsOf parsed channel)).mapM normalizeItem
    else .error UNRECOGNIZED
  | none => .error UNRECOGNIZED

/-! ## The source fetcher (lines 30-89) -/

/-- Line 16. -/
def MAX_RETRIES : Nat := 2

/-- Line 14. -/
def CONCURRENCY : Nat := 8

/-- A source of `feeds.json`. -/
structure SourceDescriptor where
  id : String
  url : String
  name : String
  nameZh : String
  category : String
  color : String
  lang : String
  deriving DecidableEq, Repr

/-- The object returned by `fetchFeed`: the fields of the source (the spread
`...feed`), the articles and the error message or `null`. -/
structure SourceResult where
  source : SourceDescriptor
  articles : List RawArticle
  error : Option String

/-- What one network attempt meets: `fetch` rejects (network error, or the
abort after `TIMEOUT_MS`) with a message; or a response arrives with a status
and a body, where the body is the parsed tree, or the message of the error
raised while reading or parsing it. -/
inductive AttemptOutcome where
  | rejected (message : String)
  | response (status : Nat) (body : Except String JVal)

/-- The `try` block of lines 31-78: the article list, or the message of the
exception that reaches `catch`. -/
def tryBlock : AttemptOutcome → Except String (List RawArticle)
  | .rejected message => .error message
  | .response status body =>
    if 200 ≤ status ∧ status ≤ 299 then
      match body with
      | .ok parsed => normalize parsed
      | .error message => .error message
    else .error ("HTTP " ++ toString status)

/-- A run of `fetchFeed`: the object it returns, the number of requests it
issued and the delays (ms) it waited, in order. -/
structure FetchRun where
  result : SourceResult
  attempts : Nat
  delays : List Nat

/-- Lines 30-89.  The environment `env` gives the outcome of the request
issued by the call with attempt number `attempt`. -/
def fetchFeed (feed : SourceDescriptor) (env : Nat → AttemptOutcome) (attempt : Nat) :
    FetchRun :=
  match tryBlock (env attempt) with
  | .ok list =>
    { result := { source := feed, articles := list, error := none }, attempts := 1, delays := [] }
  | .error message =>
    if attempt ≤ MAX_RETRIES then
      let delay := attempt * 2000
      let r := fetchFeed feed env (attempt + 1)
      { result := r.result, attempts := r.attempts + 1, delays := delay :: r.delays }
    else
      { result := { source := feed, articles := [], error := some message },
        attempts := 1, delays := [] }
termination_by MAX_RETRIES + 1 - attempt
decreasing_by
  simp_wf
  omega

/-! ## The batch scheduler (lines 92-105) -/

/-- The call `feedList.slice(i, j)` for `i ≤ j`. -/
def slice {α : Type} (l : List α) (i j : Nat) : List α :=
  (l.drop i).take (j - i)

/-- One promise of `Promise.all` fulfils: its value is stored at its index.
An index without a promise stores nothing. -/
def settle {α : Type} (tasks : List α) (slots : List (Option α)) (j : Nat) : List (Option α) :=
  match tasks[j]? with
  | some v => slots.set j (some v)
  | none => slots

/-- The call `Promise.all(tasks)` where every promise fulfils (`fetchFeed`
never rejects): `completion` lists the indices of the promises in the order
in which they fulfil.  Each value is stored at the index of its promise; the
result is delivered once no slot is empty, and never if one stays empty. -/
def promiseAll {α : Type} (tasks : List α) (completion : List Nat) : Option (List α) :=
  let slots := completion.foldl (settle tasks) (List.replicate tasks.length none)
  if slots.all Option.isSome then some (slots.filterMap id) else none

/-- A run of `fetchAllInBatches`: the array it returns, the groups it
formed and the pauses (ms) it made, in order. -/
structure BatchRun where
  results : List SourceResult
  batches : List (List SourceDescriptor)
  pauses : List Nat

/-- The loop of lines 94-103 from index `i` on.  `env k` is the environment
of the source at position `k` of the list; `order b` is the order in which
the fetches of group number `b` (counted from 1, line 96) complete. -/
def batchLoop (feedList : List SourceDescriptor) (env : Nat → Nat → AttemptOutcome)
    (order : Nat → List Nat) (i : Nat) (acc : BatchRun) : Option BatchRun :=
  if i < feedList.length then
    let batch := slice feedList i (i + CONCURRENCY)
    let batchNum := i / CONCURRENCY + 1
    match promiseAll (batch.mapIdx (fun j f => (fetchFeed f (env (i + j)) 1).result))
        (order batchNum) with
    | some batchResults =>
      batchLoop feedList env order (i + CONCURRENCY)
        { results := acc.results ++ batchResults,
          batches := acc.batches ++ [batch],
          pauses := if i + CONCURRENCY < feedList.length then acc.pauses ++ [500]
                    else acc.pauses }
    | none => none
  else some acc
termination_by feedList.length - i
decreasing_by
  simp_wf
  simp only [CONCURRENCY]
  omega

/-- Lines 92-105. -/
def fetchAllInBatches (feedList : List SourceDescriptor) (env : Nat → Nat → AttemptOutcome)
    (order : Nat → List Nat) : Option BatchRun :=
  batchLoop feedList env order 0 { results := [], batches := [], pauses := [] }

/-- Every fetch of every group completes: the source at position
`q * CONCURRENCY + j` is member `j` of group `q + 1`, and its index occurs in
the completion order of that group. -/
def EveryFetchSettles (n : Nat) (order : Nat → List Nat) : Prop :=
  ∀ q j, j < CONCURRENCY → q * CONCURRENCY + j < n → j ∈ order (q + 1)

/-! ## The aggregator (lines 113-147) -/

/-- An element of `output.feeds`. -/
structure SourceSummary where
  id : String
  name : String
  nameZh : String
  category : String
  color : String
  lang : String
  articleCount : Nat
  error : Option String

/-- An element of `output.articles`. -/
structure FlatArticle where
  feedId : String
  feedName : String
  feedNameZh : String
  category : String
  color : String
  lang : String
  title : JStr
  link : JVal
  pubDate : JVal
  summary : JStr

/-- The object `output` of lines 118-147, without `fetchedAt` (the wall
clock). -/
structure AggregateReport where
  feedCount : Nat
  successCount : Nat
  articleCount : Nat
  feeds : List SourceSummary
  articles : List FlatArticle

/-- Truthiness of `r.error`: `null` and the empty message are falsy. -/
def errorTruthy : Option String → Bool
  | some message => message != ""
  | none => false

/-- Lines 134-145: one article with the fields of its source. -/
def stamp (r : SourceResult) (a : RawArticle) : FlatArticle :=
  { feedId := r.source.id, feedName := r.source.name, feedNameZh := r.source.nameZh,
    category := r.source.category, color := r.source.color, lang := r.source.lang,
    title := a.title, link := a.link, pubDate := a.pubDate, summary := a.summary }

/-- Lines 124-131: the summary of one result. -/
def summarize (r : SourceResult) : SourceSummary :=
  { id := r.source.id, name := r.source.name, nameZh := r.source.nameZh,
    category := r.source.category, color := r.source.color, lang := r.source.lang,
    articleCount := r.articles.length, error := r.error }

/-- Lines 115-147 of `main`: `feeds` is the source list read at line 19,
`results` the array returned by `fetchAllInBatches(feeds)`. -/
def aggregate (feeds : List SourceDescriptor) (results : List SourceResult) :
    AggregateReport :=
  let successCount := (results.filter (fun r => !errorTruthy r.error)).length
  let totalArticles := results.foldl (fun sum r => sum + r.articles.length) 0
  { feedCount := feeds.length,
    successCount := successCount,
    articleCount := totalArticles,
    feeds := results.map summarize,
    articles := results.flatMap (fun r => r.articles.map (stamp r)) }

/-- Lines 113-147: the output of a run. -/
def main (feeds : List SourceDescriptor) (env : Nat → Nat → AttemptOutcome)
    (order : Nat → List Nat) : Option AggregateReport :=
  (fetchAllInBatches feeds env order).map (fun run => aggregate feeds run.results)

/-! ## Definitions used in the proofs -/

/-- The slots after the promises listed in `done` have fulfilled. -/
def slotsAfter {α : Type} (tasks : List α) (done : List Nat) : List (Option α) :=
  (List.range tasks.length).map (fun j => if j ∈ done then tasks[j]? else none)

/-- The result of fetching each source of the list, in the order of the list:
entry `k` is the result of `fetchFeed` on source `k` in its own environment. -/
def fetchEach (feedList : List SourceDescriptor) (env : Nat → Nat → AttemptOutcome) :
    List SourceResult :=
  feedList.mapIdx (fun k f => (fetchFeed f (env k) 1).result)

/-! ## Sample inputs -/

/-- A source used in the concrete instances below. -/
def sampleSource : SourceDescriptor :=
  { id := "hn", url := "https://example.org/rss", name := "Example", nameZh := "示例",
    category := "tech", color := "#ff6600", lang := "en" }

/-- An RSS 2.0 tree with one entry whose title is `<title type="html">2024</title>`:
the parser yields the number `2024` as the text payload of the title. -/
def numericTitleDoc : JVal :=
  .obj [("rss", .obj [("channel", .obj [
    ("title", .str (utf16 "News")),
    ("item", .obj [
      ("title", .obj [("#text", .num 2024), ("@_type", .str (utf16 "html"))]),
      ("link", .str (utf16 "https://example.org/2024"))])])])]

/-- An RSS 2.0 tree whose channel has no entry. -/
def emptyChannelDoc : JVal :=
  .obj [("rss", .obj [("channel", .obj [("title", .str (utf16 "News"))])])]

/-- An RSS 2.0 tree with one entry. -/
def oneItemDoc : JVal :=
  .obj [("rss", .obj [("channel", .obj [
    ("item", .obj [("title", .str (utf16 " Hello ")),
                   ("link", .str (utf16 "https://example.org/1"))])])])]

/-- Ten sources `s0` ... `s9`: one full group of 8 and a group of 2. -/
def tenSources : List SourceDescriptor :=
  (List.range 10).map (fun i => { sampleSource with id := "s" ++ toString i })

/-- Environment of the ten sources: every third source always fails, the
others receive a feed at the first attempt. -/
def sampleEnv : Nat → Nat → AttemptOutcome :=
  fun i _ => if i % 3 = 0 then .rejected "fetch failed" else .response 200 (.ok oneItemDoc)

/-- The same but for source 0, which now answers at once. -/
def otherEnv : Nat → Nat → AttemptOutcome :=
  fun i _ => if i = 3 then .rejected "fetch failed" else .response 200 (.ok oneItemDoc)

/-- Completion orders: the fetches of every group complete last to first. -/
def reverseOrder : Nat → List Nat :=
  fun b => if b = 1 then [7, 6, 5, 4, 3, 2, 1, 0] else [1, 0]

/-- Completion orders: the fetches of every group complete first to last. -/
def forwardOrder : Nat → List Nat :=
  fun b => if b = 1 then [0, 1, 2, 3, 4, 5, 6, 7] else [0, 1]

/-- Three results: two successes (2 articles and 1 article) and a failure. -/
def threeResults : List SourceResult :=
  [ { source := { sampleSource with id := "a" },
      articles := [ { title := utf16 "One", link := .str (utf16 "https://example.org/1"),
                      pubDate := .str [], summary := [] },
                    { title := utf16 "Two", link := .str (utf16 "https://example.org/2"),
                      pubDate := .str [], summary := [] } ],
      error := none },
    { source := { sampleSource with id := "b" },
      articles := [ { title := utf16 "Three", link := .str [], pubDate := .num 2024,
                      summary := utf16 "text" } ],
      error := none },
    { source := { sampleSource with id := "c" }, articles := [],
      error := some "The operation was aborted due to timeout" } ]

/-- The sources of `threeResults`. -/
def threeSources : List SourceDescriptor :=
  threeResults.map (fun r => r.source)

/-! ## Sample inputs of the normalizer -/

/-- An entry whose title is `<title type="html">2024</title>`. -/
def numericTitleEntry : JVal :=
  .obj [("title", .obj [("#text", .num 2024), ("@_type", .str (utf16 "html"))]),
        ("link", .str (utf16 "https://example.org/2024"))]

/-- An entry with a plain title and link. -/
def plainEntry : JVal :=
  .obj [("title", .str (utf16 " Hello ")), ("link", .str (utf16 "https://example.org/1"))]

/-- An RSS 2.0 tree whose channel has `container` at `item`. -/
def rssDocWith (container : JVal) : JVal :=
  .obj [("rss", .obj [("channel", .obj [("title", .str (utf16 "News")), ("item", container)])])]

/-- A tree with an RSS channel that has no `item`, next to an `rdf:RDF` root
with one `item`. -/
def rssAndRdfDoc : JVal :=
  .obj [("rss", .obj [("channel", .obj [("title", .str (utf16 "News"))])]),
        ("rdf:RDF", .obj [("item", plainEntry)])]

/-- An RSS 2.0 tree whose channel has no `item` but an `entry`. -/
def rssEntryDoc : JVal :=
  .obj [("rss", .obj [("channel", .obj [("title", .str (utf16 "News")),
    ("entry", plainEntry)])])]

/-! ## Sample inputs of the field rules -/

/-- A link element `<link rel=... href=...>`. -/
def linkElement (rel href : String) : JVal :=
  .obj [("@_rel", .str (utf16 rel)), ("@_href", .str (utf16 href))]

/-- An entry whose links are: `self` with href A, `alternate` without href,
`alternate` with href B. -/
def alternateWithoutHrefEntry : JVal :=
  .obj [("link", .arr [linkElement "self" "A",
                       .obj [("@_rel", .str (utf16 "alternate"))],
                       linkElement "alternate" "B"])]

/-- An entry whose links are `self` with href A and `alternate` with href B. -/
def atomLinksEntry : JVal :=
  .obj [("link", .arr [linkElement "self" "A", linkElement "alternate" "B"])]

/-! ## Definitions used in the proofs on the summary -/

/-- Whether the pattern `<[^>]+>` matches somewhere in a text. -/
def hasTag : JStr → Bool
  | [] => false
  | c :: cs => (c == LT_UNIT && (matchTagBody cs).isSome) || hasTag cs

/-- A description of 600 letters `a` in a paragraph element, followed by a
blank. -/
def longDescription : JStr :=
  utf16 "<p>" ++ List.replicate 600 97 ++ utf16 "</p> "

/-- A description with nested and adjacent tags. -/
def nestedTagsDescription : JStr :=
  utf16 " <<b>>x<i><u>y</u></i><br/><hr/> "

/-! ## The groups of the scheduler, as the specification describes them -/

/-- The consecutive slices `[0, 8)`, `[8, 16)`, ... of a list: slice `k` holds
the positions from `k * CONCURRENCY` up to, not including,
`k * CONCURRENCY + CONCURRENCY`, and there are `ceil (n / CONCURRENCY)` of
them. -/
def consecutiveSlices (feedList : List SourceDescriptor) : List (List SourceDescriptor) :=
  (List.range ((feedList.length + CONCURRENCY - 1) / CONCURRENCY)).map
    (fun k => slice feedList (k * CONCURRENCY) (k * CONCURRENCY + CONCURRENCY))

/-- The consecutive slices from slice number `q` on. -/
def slicesFrom (feedList : List SourceDescriptor) (q : Nat) : List (List SourceDescriptor) :=
  (List.range ((feedList.length + CONCURRENCY - 1) / CONCURRENCY - q)).map
    (fun k => slice feedList ((q + k) * CONCURRENCY) ((q + k) * CONCURRENCY + CONCURRENCY))

/-! ## The tag-stripping scan as regular-expression replacement -/

theorem stripScan_skip : ∀ (cs rest : JStr), skipToClose cs = some rest →
    stripScan true cs = stripScan false rest
  | [], rest, h => by simp [skipToClose] at h
  | c :: cs, rest, h => by
    by_cases hc : c = GT_UNIT
    · simp only [skipToClose, hc, if_true, Option.some.injEq] at h
      simp [stripScan, hc, h]
    · simp only [skipToClose, hc, if_false] at h
      simp only [stripScan, hc, if_false]
      exact stripScan_skip cs rest h

theorem matchTagBody_eq_skipToClose (cs rest : JStr) (h : matchTagBody cs = some rest) :
    skipToClose cs = some rest := by
  cases cs with
  | nil => simp [matchTagBody] at h
  | cons c cs =>
    by_cases hc : c = GT_UNIT
    · simp [matchTagBody, hc] at h
    · simp only [matchTagBody, hc, if_false] at h
      simp only [skipToClose, hc, if_false]
      exact h

/-- Where `<[^>]+>` matches, the match is removed and the scan resumes behind
it. -/
theorem stripTags_match (cs rest : JStr) (h : matchTagBody cs = some rest) :
    stripTags (LT_UNIT :: cs) = stripTags rest := by
  simp only [stripTags, stripScan, h, Option.isSome_some, and_self, if_true]
  exact stripScan_skip cs rest (matchTagBody_eq_skipToClose cs rest h)

/-- A `<` at which the pattern does not match is kept. -/
theorem stripTags_no_match (cs : JStr) (h : matchTagBody cs = none) :
    stripTags (LT_UNIT :: cs) = LT_UNIT :: stripTags cs := by
  simp [stripTags, stripScan, h]

/-- A unit other than `<` is kept. -/
theorem stripTags_other (c : Nat) (cs : JStr) (h : c ≠ LT_UNIT) :
    stripTags (c :: cs) = c :: stripTags cs := by
  simp [stripTags, stripScan, h]

/-! ## Lemmas on `fetchFeed` -/

theorem fetchFeed_of_ok (feed : SourceDescriptor) (env : Nat → AttemptOutcome) (attempt : Nat)
    (list : List RawArticle) (h : tryBlock (env attempt) = .ok list) :
    fetchFeed feed env attempt =
      { result := { source := feed, articles := list, error := none },
        attempts := 1, delays := [] } := by
  rw [fetchFeed, h]

theorem fetchFeed_of_error_retry (feed : SourceDescriptor) (env : Nat → AttemptOutcome)
    (attempt : Nat) (message : String) (h : tryBlock (env attempt) = .error message)
    (hle : attempt ≤ MAX_RETRIES) :
    fetchFeed feed env attempt =
      { result := (fetchFeed feed env (attempt + 1)).result,
        attempts := (fetchFeed feed env (attempt + 1)).attempts + 1,
        delays := attempt * 2000 :: (fetchFeed feed env (attempt + 1)).delays } := by
  rw [fetchFeed, h]
  simp [hle]

theorem fetchFeed_of_error_last (feed : SourceDescriptor) (env : Nat → AttemptOutcome)
    (attempt : Nat) (message : String) (h : tryBlock (env attempt) = .error message)
    (hgt : MAX_RETRIES < attempt) :
    fetchFeed feed env attempt =
      { result := { source := feed, articles := [], error := some message },
        attempts := 1, delays := [] } := by
  rw [fetchFeed, h]
  simp [Nat.not_le.mpr hgt]

theorem tryBlock_cases (o : AttemptOutcome) :
    (∃ list, tryBlock o = .ok list) ∨ (∃ message, tryBlock o = .error message) := by
  cases h : tryBlock o with
  | ok list => exact Or.inl ⟨list, rfl⟩
  | error message => exact Or.inr ⟨message, rfl⟩

/-! ## Lemmas on `Promise.all` -/

theorem getElem?_slotsAfter {α : Type} (tasks : List α) (done : List Nat) (i : Nat) :
    (slotsAfter tasks done)[i]? =
      if i < tasks.length then some (if i ∈ done then tasks[i]? else none) else none := by
  unfold slotsAfter
  by_cases hi : i < tasks.length
  · simp [List.getElem?_map, List.getElem?_range hi, hi]
  · have : (List.range tasks.length)[i]? = none := by
      apply List.getElem?_eq_none; simp; omega
    simp [List.getElem?_map, this, hi]

theorem settle_slotsAfter {α : Type} (tasks : List α) (done : List Nat) (j : Nat) :
    settle tasks (slotsAfter tasks done) j = slotsAfter tasks (done ++ [j]) := by
  apply List.ext_getElem?
  intro i
  unfold settle
  cases hj : tasks[j]? with
  | none =>
    have hjn : tasks.length ≤ j := by
      by_contra hlt
      rw [List.getElem?_eq_getElem (by omega)] at hj
      cases hj
    simp only [getElem?_slotsAfter]
    by_cases hi : i < tasks.length
    · have hne : i ≠ j := by omega
      simp [hi, hne]
    · simp [hi]
  | some v =>
    have hjn : j < tasks.length := by
      by_contra hge
      rw [List.getElem?_eq_none (by omega)] at hj
      cases hj
    simp only [List.getElem?_set, getElem?_slotsAfter]
    by_cases hij : j = i
    · subst hij
      have hlen : j < (slotsAfter tasks done).length := by simp [slotsAfter, hjn]
      simp [hlen, hjn, hj]
    · have hne : i ≠ j := fun h => hij h.symm
      simp [hij, hne]

theorem foldl_settle {α : Type} (tasks : List α) : ∀ (completion done : List Nat),
    completion.foldl (settle tasks) (slotsAfter tasks done) = slotsAfter tasks (done ++ completion)
  | [], done => by simp
  | j :: completion, done => by
    rw [List.foldl_cons, settle_slotsAfter, foldl_settle tasks completion (done ++ [j])]
    simp

theorem promiseAll_slots {α : Type} (tasks : List α) (completion : List Nat) :
    promiseAll tasks completion =
      if (slotsAfter tasks completion).all Option.isSome
      then some ((slotsAfter tasks completion).filterMap id) else none := by
  have h0 : List.replicate tasks.length (none : Option α) = slotsAfter tasks [] := by
    apply List.ext_getElem?
    intro i
    simp [getElem?_slotsAfter, List.getElem?_replicate]
  unfold promiseAll
  simp only [h0, foldl_settle, List.nil_append]

/-- When every promise fulfils, `Promise.all` delivers the values in the
order of the promises, whatever the order of fulfilment. -/
theorem promiseAll_of_settles {α : Type} (tasks : List α) (completion : List Nat)
    (h : ∀ j, j < tasks.length → j ∈ completion) :
    promiseAll tasks completion = some tasks := by
  have hs : slotsAfter tasks completion = tasks.map some := by
    apply List.ext_getElem?
    intro i
    rw [getElem?_slotsAfter]
    by_cases hi : i < tasks.length
    · simp [hi, h i hi]
    · simp [hi, List.getElem?_eq_none (Nat.le_of_not_lt hi)]
  rw [promiseAll_slots, hs]
  simp [List.filterMap_map]

/-- A delivered result of `Promise.all` is the list of the values in the
order of the promises. -/
theorem promiseAll_eq_some {α : Type} (tasks : List α) (completion : List Nat) (l : List α)
    (h : promiseAll tasks completion = some l) : l = tasks := by
  rw [promiseAll_slots] at h
  split at h
  · rename_i hall
    have hs : slotsAfter tasks completion = tasks.map some := by
      apply List.ext_getElem?
      intro i
      rw [getElem?_slotsAfter]
      by_cases hi : i < tasks.length
      · have hmem : (slotsAfter tasks completion)[i]? =
            some (if i ∈ completion then tasks[i]? else none) := by
          rw [getElem?_slotsAfter]; simp [hi]
        have hin := List.mem_iff_getElem?.mpr ⟨i, hmem⟩
        have := (List.all_eq_true.mp hall) _ hin
        by_cases hc : i ∈ completion
        · simp [hi, hc]
        · simp [hc] at this
      · simp [hi, List.getElem?_eq_none (Nat.le_of_not_lt hi)]
    rw [hs] at h
    simp [List.filterMap_map] at h
    exact h.symm
  · cases h

/-! ## Lemmas on the scheduler -/

theorem batch_tasks (feedList : List SourceDescriptor) (env : Nat → Nat → AttemptOutcome)
    (i : Nat) :
    (slice feedList i (i + CONCURRENCY)).mapIdx
        (fun j f => (fetchFeed f (env (i + j)) 1).result) =
      ((fetchEach feedList env).drop i).take CONCURRENCY := by
  apply List.ext_getElem?
  intro n
  simp only [fetchEach, slice, List.getElem?_mapIdx, List.getElem?_take, List.getElem?_drop,
    Nat.add_sub_cancel_left]
  by_cases hn : n < CONCURRENCY
  · simp [hn]
  · simp [hn]

theorem batchLoop_results (feedList : List SourceDescriptor) (env : Nat → Nat → AttemptOutcome)
    (order : Nat → List Nat) (hsettle : EveryFetchSettles feedList.length order) :
    ∀ (m q : Nat) (acc : BatchRun), feedList.length - q * CONCURRENCY ≤ m →
      ∃ run, batchLoop feedList env order (q * CONCURRENCY) acc = some run ∧
        run.results = acc.results ++ (fetchEach feedList env).drop (q * CONCURRENCY) := by
  have hC : CONCURRENCY = 8 := rfl
  have hlen : (fetchEach feedList env).length = feedList.length := by simp [fetchEach]
  intro m
  induction m with
  | zero =>
    intro q acc hm
    have hge : ¬ q * CONCURRENCY < feedList.length := by omega
    rw [batchLoop, if_neg hge]
    refine ⟨acc, rfl, ?_⟩
    rw [List.drop_of_length_le (by omega)]
    simp
  | succ m ih =>
    intro q acc hm
    by_cases hlt : q * CONCURRENCY < feedList.length
    · rw [batchLoop, if_pos hlt]
      simp only [batch_tasks]
      have hq : q * CONCURRENCY / CONCURRENCY = q := Nat.mul_div_cancel q (by decide)
      have hall : promiseAll (((fetchEach feedList env).drop (q * CONCURRENCY)).take CONCURRENCY)
          (order (q * CONCURRENCY / CONCURRENCY + 1)) =
          some (((fetchEach feedList env).drop (q * CONCURRENCY)).take CONCURRENCY) := by
        apply promiseAll_of_settles
        intro j hj
        rw [hq]
        simp only [List.length_take, List.length_drop, hlen] at hj
        exact hsettle q j (by omega) (by omega)
      rw [hall]
      simp only
      have hnext : q * CONCURRENCY + CONCURRENCY = (q + 1) * CONCURRENCY := by
        rw [Nat.add_mul, Nat.one_mul]
      rw [hnext]
      obtain ⟨run, hrun, hres⟩ := ih (q + 1) _ (by rw [← hnext]; omega)
      refine ⟨run, hrun, ?_⟩
      rw [hres]
      simp only [List.append_assoc]
      congr 1
      rw [← hnext, ← List.drop_drop]
      exact List.take_append_drop _ _
    · rw [batchLoop, if_neg hlt]
      refine ⟨acc, rfl, ?_⟩
      rw [List.drop_of_length_le (by omega)]
      simp

/-- When every fetch completes, `fetchAllInBatches` returns, and returns the
result of each source in the order of the list. -/
theorem fetchAllInBatches_results (feedList : List SourceDescriptor)
    (env : Nat → Nat → AttemptOutcome) (order : Nat → List Nat)
    (hsettle : EveryFetchSettles feedList.length order) :
    ∃ run, fetchAllInBatches feedList env order = some run ∧
      run.results = fetchEach feedList env := by
  obtain ⟨run, hrun, hres⟩ :=
    batchLoop_results feedList env order hsettle feedList.length 0
      { results := [], batches := [], pauses := [] } (by simp)
  refine ⟨run, ?_, ?_⟩
  · simpa [fetchAllInBatches] using hrun
  · simpa using hres

theorem getElem?_fetchEach (feedList : List SourceDescriptor)
    (env : Nat → Nat → AttemptOutcome) (i : Nat) (hi : i < feedList.length) :
    (fetchEach feedList env)[i]? = some (fetchFeed feedList[i] (env i) 1).result := by
  simp [fetchEach, List.getElem?_mapIdx, List.getElem?_eq_getElem hi]

/-- The result of `fetchFeed` carries the source it was called with. -/
theorem fetchFeed_source (feed : SourceDescriptor) (env : Nat → AttemptOutcome) :
    (fetchFeed feed env 1).result.source = feed := by
  rcases tryBlock_cases (env 1) with ⟨l1, h1⟩ | ⟨m1, h1⟩
  · rw [fetchFeed_of_ok _ _ 1 _ h1]
  · rw [fetchFeed_of_error_retry _ _ 1 _ h1 (by decide)]
    rcases tryBlock_cases (env 2) with ⟨l2, h2⟩ | ⟨m2, h2⟩
    · rw [fetchFeed_of_ok _ _ 2 _ h2]
    · rw [fetchFeed_of_error_retry _ _ 2 _ h2 (by decide)]
      rcases tryBlock_cases (env 3) with ⟨l3, h3⟩ | ⟨m3, h3⟩
      · rw [fetchFeed_of_ok _ _ 3 _ h3]
      · rw [fetchFeed_of_error_last _ _ 3 _ h3 (by decide)]

/-- The run of `fetchFeed` depends on the outcomes of attempts 1, 2 and 3
only. -/
theorem fetchFeed_congr (feed : SourceDescriptor) (env env' : Nat → AttemptOutcome)
    (h : ∀ k, 1 ≤ k → k ≤ 3 → env k = env' k) :
    fetchFeed feed env 1 = fetchFeed feed env' 1 := by
  have e1 := h 1 (by decide) (by decide)
  have e2 := h 2 (by decide) (by decide)
  have e3 := h 3 (by decide) (by decide)
  rcases tryBlock_cases (env 1) with ⟨l1, h1⟩ | ⟨m1, h1⟩
  · rw [fetchFeed_of_ok _ env 1 _ h1, fetchFeed_of_ok _ env' 1 _ (e1 ▸ h1)]
  · rw [fetchFeed_of_error_retry _ env 1 _ h1 (by decide),
      fetchFeed_of_error_retry _ env' 1 _ (e1 ▸ h1) (by decide)]
    rcases tryBlock_cases (env 2) with ⟨l2, h2⟩ | ⟨m2, h2⟩
    · rw [fetchFeed_of_ok _ env 2 _ h2, fetchFeed_of_ok _ env' 2 _ (e2 ▸ h2)]
    · rw [fetchFeed_of_error_retry _ env 2 _ h2 (by decide),
        fetchFeed_of_error_retry _ env' 2 _ (e2 ▸ h2) (by decide)]
      rcases tryBlock_cases (env 3) with ⟨l3, h3⟩ | ⟨m3, h3⟩
      · rw [fetchFeed_of_ok _ env 3 _ h3, fetchFeed_of_ok _ env' 3 _ (e3 ▸ h3)]
      · rw [fetchFeed_of_error_last _ env 3 _ h3 (by decide),
          fetchFeed_of_error_last _ env' 3 _ (e3 ▸ h3) (by decide)]

/-! ## Lemmas on the aggregator -/

theorem foldl_add_length (rs : List SourceResult) : ∀ (start : Nat),
    rs.foldl (fun sum r => sum + r.articles.length) start =
      start + (rs.map (fun r => r.articles.length)).sum := by
  induction rs with
  | nil => intro start; simp
  | cons r rs ih =>
    intro start
    rw [List.foldl_cons, ih]
    simp only [List.map_cons, List.sum_cons]
    omega

theorem length_flatMap_stamp (rs : List SourceResult) :
    (rs.flatMap (fun r => r.articles.map (stamp r))).length =
      (rs.map (fun r => r.articles.length)).sum := by
  induction rs with
  | nil => rfl
  | cons r rs ih => simp [List.flatMap_cons, ih]

/-- Position `j` of the part contributed by result `i` in a flattened list. -/
theorem getElem?_flatMap_offset {α β : Type} (f : α → List β) : ∀ (l : List α) (i j : Nat)
    (hi : i < l.length), j < (f l[i]).length →
    (l.flatMap f)[((l.take i).map (fun x => (f x).length)).sum + j]? = (f l[i])[j]?
  | [], i, j, hi, _ => by simp at hi
  | x :: xs, 0, j, _, hj => by
    simp only [List.getElem_cons_zero] at hj
    simp [List.flatMap_cons, List.getElem?_append_left hj]
  | x :: xs, i + 1, j, hi, hj => by
    simp only [List.getElem_cons_succ] at hj
    have hi' : i < xs.length := by simpa using hi
    have ih := getElem?_flatMap_offset f xs i j hi' hj
    simp only [List.flatMap_cons, List.take_succ_cons, List.map_cons, List.sum_cons,
      List.getElem_cons_succ]
    rw [List.getElem?_append_right (by omega)]
    rw [← ih]
    congr 1
    omega

/-! ## Lemmas on the sample inputs -/

theorem reverseOrder_settles : EveryFetchSettles tenSources.length reverseOrder := by
  intro q j hj hlt
  have hC : CONCURRENCY = 8 := rfl
  have hn : tenSources.length = 10 := rfl
  rw [hC] at hj hlt
  rw [hn] at hlt
  have hq : q = 0 ∨ q = 1 := by omega
  rcases hq with rfl | rfl
  · simp only [reverseOrder]
    interval_cases j <;> simp
  · have hj2 : j = 0 ∨ j = 1 := by omega
    rcases hj2 with rfl | rfl <;> simp [reverseOrder]

theorem forwardOrder_settles : EveryFetchSettles tenSources.length forwardOrder := by
  intro q j hj hlt
  have hC : CONCURRENCY = 8 := rfl
  have hn : tenSources.length = 10 := rfl
  rw [hC] at hj hlt
  rw [hn] at hlt
  have hq : q = 0 ∨ q = 1 := by omega
  rcases hq with rfl | rfl
  · simp only [forwardOrder]
    interval_cases j <;> simp
  · have hj2 : j = 0 ∨ j = 1 := by omega
    rcases hj2 with rfl | rfl <;> simp [forwardOrder]

/-! ## Lemmas on `||` -/

theorem jsOr_of_truthy (a b : Option JVal) (h : truthy a = true) : jsOr a b = a := by
  simp [jsOr, h]

theorem jsOr_of_falsy (a b : Option JVal) (h : truthy a = false) : jsOr a b = b := by
  simp [jsOr, h]

theorem jsOrD_of_truthy (v d : JVal) (h : v.truthy = true) : jsOrD (some v) d = v := by
  simp [jsOrD, h]

theorem jsOrD_of_falsy (a : Option JVal) (d : JVal) (h : truthy a = false) : jsOrD a d = d := by
  cases a with
  | none => rfl
  | some v =>
    have hf : v.truthy = false := h
    simp [jsOrD, hf]

theorem truthy_some (v : JVal) : truthy (some v) = v.truthy := rfl

/-! ## Lemmas on the normalizer -/

/-- With a truthy channel root, normalization maps the callback over the
entry list. -/
theorem normalize_of_channel (parsed channel : JVal) (hch : channelOf parsed = some channel)
    (htruthy : channel.truthy = true) :
    normalize parsed = (asList (itemsOf parsed channel)).mapM normalizeItem := by
  simp [normalize, hch, htruthy]

theorem channelOf_of_rss (parsed channel : JVal)
    (hch : prop (parsed.get "rss") "channel" = some channel) (htruthy : channel.truthy = true) :
    channelOf parsed = some channel := by
  simp [channelOf, jsOr, hch, truthy, htruthy]

theorem mapM_singleton (e : JVal) :
    [e].mapM normalizeItem = (normalizeItem e).map (fun a => [a]) := by
  rw [List.mapM_cons, List.mapM_nil]
  cases normalizeItem e <;> rfl

/-- The articles of a successful `mapM` correspond to the entries one to
one, in order. -/
theorem mapM_ok_getElem : ∀ (entries : List JVal) (articles : List RawArticle),
    entries.mapM normalizeItem = .ok articles →
    articles.length = entries.length ∧
      ∀ i : Nat, (entries[i]?).map normalizeItem = (articles[i]?).map Except.ok
  | [], articles, h => by
    rw [List.mapM_nil] at h
    cases h
    exact ⟨rfl, fun i => by simp⟩
  | e :: es, articles, h => by
    rw [List.mapM_cons] at h
    cases he : normalizeItem e with
    | error m => rw [he] at h; cases h
    | ok a =>
      rw [he] at h
      cases hes : es.mapM normalizeItem with
      | error m => rw [hes] at h; cases h
      | ok as =>
        rw [hes] at h
        cases h
        obtain ⟨hlen, hget⟩ := mapM_ok_getElem es as hes
        refine ⟨by simp [hlen], fun i => ?_⟩
        cases i with
        | zero => simp [he]
        | succ i => simpa using hget i

/-- When the callback succeeds on every entry, so does `mapM`. -/
theorem mapM_ok_of_forall : ∀ (entries : List JVal),
    (∀ e ∈ entries, ∃ a, normalizeItem e = .ok a) →
    ∃ articles, entries.mapM normalizeItem = .ok articles
  | [], _ => ⟨[], rfl⟩
  | e :: es, h => by
    obtain ⟨a, ha⟩ := h e (List.mem_cons_self _ _)
    obtain ⟨as, has⟩ := mapM_ok_of_forall es (fun x hx => h x (List.mem_cons_of_mem _ hx))
    refine ⟨a :: as, ?_⟩
    rw [List.mapM_cons, ha, has]
    rfl

/-- A single entry object as container and the one-element sequence of it
normalize alike: to the one article of the entry, or to its error. -/
theorem normalize_single_container (parsed parsed' channel channel' : JVal)
    (fields : List (String × JVal))
    (hch : channelOf parsed = some channel) (htruthy : channel.truthy = true)
    (hch' : channelOf parsed' = some channel') (htruthy' : channel'.truthy = true)
    (hitems : itemsOf parsed channel = .obj fields)
    (hitems' : itemsOf parsed' channel' = .arr [.obj fields]) :
    normalize parsed = normalize parsed' ∧
    normalize parsed = (normalizeItem (.obj fields)).map (fun a => [a]) := by
  rw [normalize_of_channel parsed channel hch htruthy,
    normalize_of_channel parsed' channel' hch' htruthy', hitems, hitems']
  exact ⟨rfl, mapM_singleton _⟩

/-- A document whose entry container is a sequence, and whose entries all
pass the callback, yields one article per entry, in order. -/
theorem normalize_sequence (parsed channel : JVal) (entries : List JVal)
    (hch : channelOf parsed = some channel) (htruthy : channel.truthy = true)
    (hitems : itemsOf parsed channel = .arr entries)
    (hall : ∀ e ∈ entries, ∃ a, normalizeItem e = .ok a) :
    ∃ articles, normalize parsed = .ok articles ∧ articles.length = entries.length ∧
      ∀ i : Nat, (entries[i]?).map normalizeItem = (articles[i]?).map Except.ok := by
  rw [normalize_of_channel parsed channel hch htruthy, hitems]
  obtain ⟨articles, h⟩ := mapM_ok_of_forall entries hall
  exact ⟨articles, h, mapM_ok_getElem entries articles h⟩

/-! ## Lemmas on the link -/

theorem relIsAlternate_iff (l : JVal) :
    relIsAlternate l = true ↔ l.get "@_rel" = some (.str (utf16 "alternate")) := by
  unfold relIsAlternate
  cases h : l.get "@_rel" with
  | none => simp
  | some v =>
    cases v with
    | str s => simp
    | num n => simp
    | bool b => simp
    | obj fields => simp
    | arr items => simp

theorem find?_first_alternate (pre post : List JVal) (l : JVal)
    (hpre : ∀ x ∈ pre, x.get "@_rel" ≠ some (.str (utf16 "alternate")))
    (hrel : l.get "@_rel" = some (.str (utf16 "alternate"))) :
    (pre ++ l :: post).find? relIsAlternate = some l := by
  induction pre with
  | nil => simp [List.find?, (relIsAlternate_iff l).mpr hrel]
  | cons x xs ih =>
    have hx : relIsAlternate x = false := by
      cases hb : relIsAlternate x with
      | false => rfl
      | true => exact absurd ((relIsAlternate_iff x).mp hb) (hpre x (List.mem_cons_self _ _))
    simp only [List.cons_append, List.find?, hx]
    exact ih (fun y hy => hpre y (List.mem_cons_of_mem _ hy))

theorem find?_no_alternate (ls : List JVal)
    (hno : ∀ x ∈ ls, x.get "@_rel" ≠ some (.str (utf16 "alternate"))) :
    ls.find? relIsAlternate = none := by
  rw [List.find?_eq_none]
  intro x hx hb
  exact hno x hx ((relIsAlternate_iff x).mp hb)

theorem linkOf_arr (item : JVal) (ls : List JVal) (h : item.get "link" = some (.arr ls)) :
    linkOf item =
      jsOrD (jsOr (prop (ls.find? relIsAlternate) "@_href") (prop ls.head? "@_href"))
        (.str []) := by
  simp [linkOf, h]

theorem linkOf_other (item : JVal) (l : Option JVal) (h : item.get "link" = l)
    (hstr : ∀ s, l ≠ some (.str s)) (harr : ∀ ls, l ≠ some (.arr ls)) :
    linkOf item = jsOrD (prop l "@_href") (.str []) := by
  subst h
  unfold linkOf
  split
  · rename_i s hs; exact absurd hs (hstr s)
  · rename_i ls hs; exact absurd hs (harr ls)
  · unfold jsOrD
    rfl

/-! ## Lemmas on the title -/

theorem titleOf_other (item : JVal) (t : Option JVal) (h : item.get "title" = t)
    (hstr : ∀ s, t ≠ some (.str s)) :
    titleOf item = jsOrD (prop t "#text") (.str []) := by
  subst h
  unfold titleOf
  split
  · rename_i s hs; exact absurd hs (hstr s)
  · rfl

theorem trim_nil : trim [] = [] := rfl

theorem normalizeItem_of_title_str (item : JVal) (s : JStr) (h : titleOf item = .str s) :
    normalizeItem item =
      .ok { title := trim s, link := linkOf item, pubDate := pubDateOf item,
            summary := summaryOf item } := by
  simp only [normalizeItem, h]

/-- A trimmed text does not start with white space. -/
theorem trim_head (s : JStr) (c : Nat) (h : (trim s).head? = some c) : isJsSpace c = false := by
  unfold trim at h
  rw [List.head?_reverse] at h
  have hsuf : (s.dropWhile isJsSpace).reverse.dropWhile isJsSpace <:+
      (s.dropWhile isJsSpace).reverse := List.dropWhile_suffix _
  obtain ⟨pre, hpre⟩ := hsuf
  have hne : (s.dropWhile isJsSpace).reverse.dropWhile isJsSpace ≠ [] := by
    intro hnil
    rw [hnil] at h
    cases h
  have hlast : ((s.dropWhile isJsSpace).reverse).getLast? = some c := by
    rw [← hpre, List.getLast?_append_of_ne_nil _ hne]
    exact h
  rw [List.getLast?_reverse] at hlast
  have := List.head?_dropWhile_not isJsSpace s
  rw [hlast] at this
  simpa using this

/-- A trimmed text does not end with white space. -/
theorem trim_getLast (s : JStr) (c : Nat) (h : (trim s).getLast? = some c) :
    isJsSpace c = false := by
  unfold trim at h
  rw [List.getLast?_reverse] at h
  have := List.head?_dropWhile_not isJsSpace (s.dropWhile isJsSpace).reverse
  rw [h] at this
  simpa using this

/-- The title of an entry, case by case: a plain-text title node and a
structured node with a text payload give the trimmed text; a node that is
neither, or whose payload is absent or falsy, gives the empty text; a
structured node with a truthy payload that is not text raises the
`TypeError`. -/
theorem normalizeItem_title (item : JVal) :
    (∀ s, item.get "title" = some (.str s) →
      ∃ a, normalizeItem item = .ok a ∧ a.title = trim s) ∧
    (∀ t s, item.get "title" = t → (∀ s', t ≠ some (.str s')) →
      prop t "#text" = some (.str s) →
      ∃ a, normalizeItem item = .ok a ∧ a.title = trim s) ∧
    (∀ t, item.get "title" = t → (∀ s', t ≠ some (.str s')) →
      truthy (prop t "#text") = false →
      ∃ a, normalizeItem item = .ok a ∧ a.title = []) ∧
    (∀ t v, item.get "title" = t → (∀ s', t ≠ some (.str s')) →
      prop t "#text" = some v → v.truthy = true → (∀ s, v ≠ .str s) →
      normalizeItem item = .error TRIM_TYPE_ERROR) := by
  refine ⟨?_, ?_, ?_, ?_⟩
  · intro s hs
    have ht : titleOf item = .str s := by simp [titleOf, hs]
    exact ⟨_, normalizeItem_of_title_str item s ht, rfl⟩
  · intro t s ht hstr hp
    have htitle : titleOf item = .str s := by
      rw [titleOf_other item t ht hstr, hp]
      cases s with
      | nil => rfl
      | cons c cs => rfl
    exact ⟨_, normalizeItem_of_title_str item s htitle, rfl⟩
  · intro t ht hstr hfalsy
    have htitle : titleOf item = .str [] := by
      rw [titleOf_other item t ht hstr, jsOrD_of_falsy _ _ hfalsy]
    exact ⟨_, normalizeItem_of_title_str item [] htitle, rfl⟩
  · intro t v ht hstr hp hv hnot
    have htitle : titleOf item = v := by
      rw [titleOf_other item t ht hstr, hp, jsOrD_of_truthy _ _ hv]
    unfold normalizeItem
    rw [htitle]
    cases v with
    | str s => exact absurd rfl (hnot s)
    | num n => rfl
    | bool b => rfl
    | obj fields => rfl
    | arr items => rfl

/-! ## Lemmas on the summary -/

theorem hasTag_cons (c : Nat) (cs : JStr) :
    hasTag (c :: cs) = ((c == LT_UNIT && (matchTagBody cs).isSome) || hasTag cs) := rfl

theorem skipToClose_none_of_not_mem : ∀ (cs : JStr), GT_UNIT ∉ cs → skipToClose cs = none
  | [], _ => rfl
  | c :: cs, h => by
    have hc : c ≠ GT_UNIT := fun e => h (by rw [e]; exact List.mem_cons_self _ _)
    simp only [skipToClose, hc, if_false]
    exact skipToClose_none_of_not_mem cs (fun hm => h (List.mem_cons_of_mem _ hm))

theorem not_mem_of_skipToClose_none : ∀ (cs : JStr), skipToClose cs = none → GT_UNIT ∉ cs
  | [], _ => by simp
  | c :: cs, h => by
    by_cases hc : c = GT_UNIT
    · simp [skipToClose, hc] at h
    · simp only [skipToClose, hc, if_false] at h
      have := not_mem_of_skipToClose_none cs h
      intro hm
      rcases List.mem_cons.mp hm with e | hm'
      · exact hc e.symm
      · exact this hm'

theorem matchTagBody_none_of_not_mem (cs : JStr) (h : GT_UNIT ∉ cs) : matchTagBody cs = none := by
  cases cs with
  | nil => rfl
  | cons c cs =>
    have hc : c ≠ GT_UNIT := fun e => h (by rw [e]; exact List.mem_cons_self _ _)
    simp only [matchTagBody, hc, if_false]
    exact skipToClose_none_of_not_mem cs (fun hm => h (List.mem_cons_of_mem _ hm))

/-- The scan only drops units. -/
theorem mem_of_mem_stripScan : ∀ (b : Bool) (s : JStr) (c : Nat), c ∈ stripScan b s → c ∈ s
  | _, [], c, h => by simp [stripScan] at h
  | false, x :: xs, c, h => by
    unfold stripScan at h
    split at h
    · exact List.mem_cons_of_mem _ (mem_of_mem_stripScan true xs c h)
    · rcases List.mem_cons.mp h with e | h'
      · rw [e]; exact List.mem_cons_self _ _
      · exact List.mem_cons_of_mem _ (mem_of_mem_stripScan false xs c h')
  | true, x :: xs, c, h => by
    unfold stripScan at h
    split at h
    · exact List.mem_cons_of_mem _ (mem_of_mem_stripScan false xs c h)
    · exact List.mem_cons_of_mem _ (mem_of_mem_stripScan true xs c h)

/-- A `<` that opens no match before stripping opens none behind it after
stripping. -/
theorem matchTagBody_stripTags_none (cs : JStr) (h : matchTagBody cs = none) :
    matchTagBody (stripTags cs) = none := by
  cases cs with
  | nil => rfl
  | cons c cs =>
    by_cases hc : c = GT_UNIT
    · subst hc
      have : stripTags (GT_UNIT :: cs) = GT_UNIT :: stripTags cs :=
        stripTags_other GT_UNIT cs (by decide)
      rw [this]
      simp [matchTagBody]
    · simp only [matchTagBody, hc, if_false] at h
      have hnot : GT_UNIT ∉ c :: cs := by
        intro hm
        rcases List.mem_cons.mp hm with e | hm'
        · exact hc e.symm
        · exact not_mem_of_skipToClose_none cs h hm'
      apply matchTagBody_none_of_not_mem
      intro hm
      exact hnot (mem_of_mem_stripScan false _ _ hm)

/-- After one pass the pattern matches nowhere. -/
theorem hasTag_stripScan : ∀ (b : Bool) (s : JStr), hasTag (stripScan b s) = false
  | _, [] => by simp [stripScan, hasTag]
  | true, c :: cs => by
    unfold stripScan
    split
    · exact hasTag_stripScan false cs
    · exact hasTag_stripScan true cs
  | false, c :: cs => by
    unfold stripScan
    split
    · exact hasTag_stripScan true cs
    · rename_i hcond
      simp only [hasTag, hasTag_stripScan false cs, Bool.or_false]
      by_cases hc : c = LT_UNIT
      · have hm : matchTagBody cs = none := by
          cases hmb : matchTagBody cs with
          | none => rfl
          | some r => exact absurd ⟨hc, by simp [hmb]⟩ hcond
        have := matchTagBody_stripTags_none cs hm
        unfold stripTags at this
        simp [this]
      · simp [hc]

/-- A text in which the pattern matches nowhere is left as it is. -/
theorem stripTags_of_hasTag_false : ∀ (s : JStr), hasTag s = false → stripTags s = s
  | [], _ => rfl
  | c :: cs, h => by
    simp only [hasTag, Bool.or_eq_false_iff] at h
    have ih := stripTags_of_hasTag_false cs h.2
    unfold stripTags at ih ⊢
    unfold stripScan
    have hcond : ¬ (c = LT_UNIT ∧ (matchTagBody cs).isSome = true) := by
      intro hc
      have := h.1
      simp [hc.1, hc.2] at this
    rw [if_neg hcond, ih]

theorem skipToClose_append : ∀ (cs r b : JStr), skipToClose cs = some r →
    skipToClose (cs ++ b) = some (r ++ b)
  | [], r, b, h => by simp [skipToClose] at h
  | c :: cs, r, b, h => by
    by_cases hc : c = GT_UNIT
    · simp only [skipToClose, hc, if_true, Option.some.injEq] at h
      simp [skipToClose, hc, h]
    · simp only [skipToClose, hc, if_false] at h
      simp only [List.cons_append, skipToClose, hc, if_false]
      exact skipToClose_append cs r b h

theorem matchTagBody_append (cs b : JStr) (h : (matchTagBody cs).isSome = true) :
    (matchTagBody (cs ++ b)).isSome = true := by
  cases cs with
  | nil => simp [matchTagBody] at h
  | cons c cs =>
    by_cases hc : c = GT_UNIT
    · simp [matchTagBody, hc] at h
    · simp only [matchTagBody, hc, if_false] at h
      simp only [List.cons_append, matchTagBody, hc, if_false]
      cases hs : skipToClose cs with
      | none => rw [hs] at h; cases h
      | some r => rw [skipToClose_append cs r b hs]; rfl

theorem hasTag_append_right : ∀ (m b : JStr), hasTag (m ++ b) = false → hasTag m = false
  | [], _, _ => rfl
  | c :: cs, b, h => by
    rw [List.cons_append, hasTag_cons, Bool.or_eq_false_iff] at h
    rw [hasTag_cons, Bool.or_eq_false_iff]
    refine ⟨?_, hasTag_append_right cs b h.2⟩
    cases hm : (matchTagBody cs).isSome with
    | false => simp
    | true =>
      have h1 := h.1
      rw [matchTagBody_append cs b hm] at h1
      exact h1

theorem hasTag_append_left : ∀ (a m : JStr), hasTag (a ++ m) = false → hasTag m = false
  | [], _, h => h
  | c :: cs, m, h => by
    rw [List.cons_append, hasTag_cons, Bool.or_eq_false_iff] at h
    exact hasTag_append_left cs m h.2

/-- Trimming removes a prefix and a suffix. -/
theorem trim_infix (l : JStr) : ∃ a b, l = a ++ trim l ++ b := by
  obtain ⟨a, ha⟩ := List.dropWhile_suffix isJsSpace (l := l)
  obtain ⟨x, hx⟩ := List.dropWhile_suffix isJsSpace (l := (l.dropWhile isJsSpace).reverse)
  refine ⟨a, x.reverse, ?_⟩
  have hm : l.dropWhile isJsSpace = trim l ++ x.reverse := by
    have := congrArg List.reverse hx
    rw [List.reverse_append, List.reverse_reverse] at this
    exact this.symm
  rw [List.append_assoc, ← hm, ha]

theorem hasTag_trim (l : JStr) (h : hasTag l = false) : hasTag (trim l) = false := by
  obtain ⟨a, b, hab⟩ := trim_infix l
  rw [hab, List.append_assoc] at h
  exact hasTag_append_right _ b (hasTag_append_left a _ h)

theorem hasTag_take (n : Nat) (l : JStr) (h : hasTag l = false) : hasTag (l.take n) = false := by
  rw [← List.take_append_drop n l] at h
  exact hasTag_append_right _ _ h

/-- A span `<`, one or more units other than `>`, `>` is a match of the
pattern. -/
theorem hasTag_of_span : ∀ (pre body post : JStr), body ≠ [] → (∀ c ∈ body, c ≠ GT_UNIT) →
    hasTag (pre ++ LT_UNIT :: (body ++ GT_UNIT :: post)) = true
  | [], body, post, hne, hno => by
    have hskip : ∀ bs : JStr, (∀ c ∈ bs, c ≠ GT_UNIT) →
        skipToClose (bs ++ GT_UNIT :: post) = some post := by
      intro bs
      induction bs with
      | nil => intro _; simp [skipToClose]
      | cons b bs ih =>
        intro hb
        have hbne : b ≠ GT_UNIT := hb b (List.mem_cons_self _ _)
        simp only [List.cons_append, skipToClose, hbne, if_false]
        exact ih (fun c hc => hb c (List.mem_cons_of_mem _ hc))
    cases body with
    | nil => exact absurd rfl hne
    | cons b bs =>
      have hbne : b ≠ GT_UNIT := hno b (List.mem_cons_self _ _)
      have hm : matchTagBody (b :: bs ++ GT_UNIT :: post) = some post := by
        simp only [List.cons_append, matchTagBody, hbne, if_false]
        exact hskip bs (fun c hc => hno c (List.mem_cons_of_mem _ hc))
      rw [List.nil_append, hasTag_cons, hm]
      simp
  | p :: pre, body, post, hne, hno => by
    rw [List.cons_append, hasTag_cons, hasTag_of_span pre body post hne hno, Bool.or_true]

theorem summaryOf_of_str (item : JVal) (s : JStr) (h : descOf item = .str s) :
    summaryOf item = (trim (stripTags s)).take 500 := by
  simp only [summaryOf, h, slice0]

theorem hasTag_summaryOf (item : JVal) : hasTag (summaryOf item) = false := by
  unfold summaryOf
  split
  · exact hasTag_take _ _ (hasTag_trim _ (hasTag_stripScan false _))
  · rfl

/-! ## Lemmas on the groups and the pauses -/

theorem slicesFrom_zero (feedList : List SourceDescriptor) :
    slicesFrom feedList 0 = consecutiveSlices feedList := by
  simp [slicesFrom, consecutiveSlices]

theorem slicesFrom_of_lt (feedList : List SourceDescriptor) (q : Nat)
    (h : q * CONCURRENCY < feedList.length) :
    slicesFrom feedList q =
      slice feedList (q * CONCURRENCY) (q * CONCURRENCY + CONCURRENCY) ::
        slicesFrom feedList (q + 1) := by
  have hC : CONCURRENCY = 8 := rfl
  have hcount : (feedList.length + CONCURRENCY - 1) / CONCURRENCY - q =
      ((feedList.length + CONCURRENCY - 1) / CONCURRENCY - (q + 1)) + 1 := by
    rw [hC] at h ⊢
    omega
  unfold slicesFrom
  rw [hcount, List.range_succ_eq_map, List.map_cons, List.map_map]
  congr 1
  apply List.map_congr_left
  intro k _
  simp only [Function.comp, Nat.succ_eq_add_one]
  have : q + (k + 1) = q + 1 + k := by omega
  rw [this]

theorem slicesFrom_of_not_lt (feedList : List SourceDescriptor) (q : Nat)
    (h : ¬ q * CONCURRENCY < feedList.length) : slicesFrom feedList q = [] := by
  have hC : CONCURRENCY = 8 := rfl
  have hcount : (feedList.length + CONCURRENCY - 1) / CONCURRENCY - q = 0 := by
    rw [hC] at h ⊢
    omega
  unfold slicesFrom
  rw [hcount]
  rfl

/-- The slices from number `q` on make up the list from position
`q * CONCURRENCY` on. -/
theorem flatten_slicesFrom (feedList : List SourceDescriptor) :
    ∀ (m q : Nat), feedList.length - q * CONCURRENCY ≤ m →
      (slicesFrom feedList q).flatten = feedList.drop (q * CONCURRENCY) := by
  have hC : CONCURRENCY = 8 := rfl
  intro m
  induction m with
  | zero =>
    intro q hm
    have hge : ¬ q * CONCURRENCY < feedList.length := by omega
    rw [slicesFrom_of_not_lt feedList q hge, List.drop_of_length_le (by omega)]
    rfl
  | succ m ih =>
    intro q hm
    by_cases hlt : q * CONCURRENCY < feedList.length
    · have hnext : q * CONCURRENCY + CONCURRENCY = (q + 1) * CONCURRENCY := by
        rw [Nat.add_mul, Nat.one_mul]
      rw [slicesFrom_of_lt feedList q hlt, List.flatten_cons,
        ih (q + 1) (by rw [← hnext]; omega), ← hnext, ← List.drop_drop, slice,
        Nat.add_sub_cancel_left]
      exact List.take_append_drop _ _
    · rw [slicesFrom_of_not_lt feedList q hlt, List.drop_of_length_le (by omega)]
      rfl

/-- Whatever `fetchAllInBatches` returns from index `q * CONCURRENCY` on, it
has formed the remaining consecutive slices and made one pause of 500 ms
for each of them but the last. -/
theorem batchLoop_trace (feedList : List SourceDescriptor) (env : Nat → Nat → AttemptOutcome)
    (order : Nat → List Nat) :
    ∀ (m q : Nat) (acc run : BatchRun), feedList.length - q * CONCURRENCY ≤ m →
      batchLoop feedList env order (q * CONCURRENCY) acc = some run →
      run.batches = acc.batches ++ slicesFrom feedList q ∧
      run.pauses = acc.pauses ++
        List.replicate ((feedList.length + CONCURRENCY - 1) / CONCURRENCY - q - 1) 500 := by
  have hC : CONCURRENCY = 8 := rfl
  intro m
  induction m with
  | zero =>
    intro q acc run hm hrun
    have hge : ¬ q * CONCURRENCY < feedList.length := by omega
    rw [batchLoop, if_neg hge] at hrun
    cases hrun
    have hcount : (feedList.length + CONCURRENCY - 1) / CONCURRENCY - q - 1 = 0 := by
      rw [hC] at hge ⊢
      omega
    rw [slicesFrom_of_not_lt feedList q hge, hcount]
    simp
  | succ m ih =>
    intro q acc run hm hrun
    by_cases hlt : q * CONCURRENCY < feedList.length
    · rw [batchLoop, if_pos hlt] at hrun
      simp only at hrun
      split at hrun
      · rename_i batchResults _
        have hnext : q * CONCURRENCY + CONCURRENCY = (q + 1) * CONCURRENCY := by
          rw [Nat.add_mul, Nat.one_mul]
        rw [hnext] at hrun
        obtain ⟨hb, hp⟩ := ih (q + 1) _ run (by rw [← hnext]; omega) hrun
        refine ⟨?_, ?_⟩
        · rw [hb, slicesFrom_of_lt feedList q hlt, hnext]
          simp
        · rw [hp]
          by_cases hmore : (q + 1) * CONCURRENCY < feedList.length
          · have hcount : (feedList.length + CONCURRENCY - 1) / CONCURRENCY - q - 1 =
                ((feedList.length + CONCURRENCY - 1) / CONCURRENCY - (q + 1) - 1) + 1 := by
              rw [hC] at hmore ⊢
              omega
            rw [if_pos hmore, hcount, List.replicate_succ]
            simp
          · have hcount : (feedList.length + CONCURRENCY - 1) / CONCURRENCY - q - 1 = 0 := by
              rw [hC] at hmore hlt ⊢
              omega
            have hcount' : (feedList.length + CONCURRENCY - 1) / CONCURRENCY - (q + 1) - 1 = 0 := by
              omega
            rw [if_neg hmore, hcount, hcount']
      · cases hrun
    · rw [batchLoop, if_neg hlt] at hrun
      cases hrun
      have hcount : (feedList.length + CONCURRENCY - 1) / CONCURRENCY - q - 1 = 0 := by
        rw [hC] at hlt ⊢
        omega
      rw [slicesFrom_of_not_lt feedList q hlt, hcount]
      simp

theorem length_consecutiveSlices (feedList : List SourceDescriptor) :
    (consecutiveSlices feedList).length = (feedList.length + 7) / 8 := by
  simp [consecutiveSlices, CONCURRENCY]

theorem getElem?_consecutiveSlices (feedList : List SourceDescriptor) (k : Nat)
    (hk : k < (feedList.length + 7) / 8) :
    (consecutiveSlices feedList)[k]? = some (slice feedList (k * 8) (k * 8 + 8)) := by
  have hC : CONCURRENCY = 8 := rfl
  unfold consecutiveSlices
  rw [List.getElem?_map, List.getElem?_range (by rw [hC]; omega)]
  rfl

theorem length_slice (feedList : List SourceDescriptor) (i : Nat) :
    (slice feedList i (i + 8)).length = min 8 (feedList.length - i) := by
  simp [slice]

theorem getElem?_slice (feedList : List SourceDescriptor) (i j : Nat) (hj : j < 8) :
    (slice feedList i (i + 8))[j]? = feedList[i + j]? := by
  simp [slice, List.getElem?_take, List.getElem?_drop, hj]

/-- When every fetch of the group at index `q * CONCURRENCY` completes,
`Promise.all` delivers the results of the group. -/
theorem promiseAll_batch (feedList : List SourceDescriptor) (env : Nat → Nat → AttemptOutcome)
    (order : Nat → List Nat) (hsettle : EveryFetchSettles feedList.length order) (q : Nat) :
    promiseAll (((fetchEach feedList env).drop (q * CONCURRENCY)).take CONCURRENCY)
        (order (q * CONCURRENCY / CONCURRENCY + 1)) =
      some (((fetchEach feedList env).drop (q * CONCURRENCY)).take CONCURRENCY) := by
  have hC : CONCURRENCY = 8 := rfl
  have hlen : (fetchEach feedList env).length = feedList.length := by simp [fetchEach]
  have hq : q * CONCURRENCY / CONCURRENCY = q := Nat.mul_div_cancel q (by decide)
  apply promiseAll_of_settles
  intro j hj
  rw [hq]
  simp only [List.length_take, List.length_drop, hlen] at hj
  exact hsettle q j (by omega) (by omega)

/-- One iteration of the loop: the fetches of the group complete, the group
is recorded, a pause of 500 ms is made exactly when another group remains,
and the loop goes on at the next index. -/
theorem batchLoop_step (feedList : List SourceDescriptor) (env : Nat → Nat → AttemptOutcome)
    (order : Nat → List Nat) (hsettle : EveryFetchSettles feedList.length order)
    (q : Nat) (acc : BatchRun) (hlt : q * 8 < feedList.length) :
    ∃ batchResults,
      batchLoop feedList env order (q * 8) acc =
        batchLoop feedList env order (q * 8 + 8)
          { results := acc.results ++ batchResults,
            batches := acc.batches ++ [slice feedList (q * 8) (q * 8 + 8)],
            pauses := if q * 8 + 8 < feedList.length then acc.pauses ++ [500]
                      else acc.pauses } := by
  refine ⟨((fetchEach feedList env).drop (q * 8)).take 8, ?_⟩
  have hall := promiseAll_batch feedList env order hsettle q
  have hC : CONCURRENCY = 8 := rfl
  rw [batchLoop, if_pos hlt]
  simp only [batch_tasks]
  rw [hC] at hall ⊢
  rw [hall]

/-! ## Claims -/

/-- C1 (evaluation at the failing input): the tree `numericTitleDoc` has the
root shape `rss.channel`, and its one entry has a structured title whose text
payload is the number 2024; normalization raises the `TypeError` of
`title.trim()` instead of returning an article with a default title, and the
fetch of a source that serves this tree ends, after three attempts, with no
article and that error. -/
theorem C1_numeric_title_payload_throws :
    truthy (prop (numericTitleDoc.get "rss") "channel") = true ∧
    normalize numericTitleDoc = .error TRIM_TYPE_ERROR ∧
    fetchFeed sampleSource (fun _ => .response 200 (.ok numericTitleDoc)) 1 =
      { result := { source := sampleSource, articles := [], error := some TRIM_TYPE_ERROR },
        attempts := 3, delays := [2000, 4000] } := by
  have hn : normalize numericTitleDoc = .error TRIM_TYPE_ERROR := rfl
  have ht : ∀ k : Nat,
      tryBlock ((fun _ : Nat => AttemptOutcome.response 200 (.ok numericTitleDoc)) k) =
        .error TRIM_TYPE_ERROR := fun _ => by
    simp only [tryBlock]
    rw [if_pos (by decide), hn]
  refine ⟨rfl, hn, ?_⟩
  rw [fetchFeed_of_error_retry _ _ 1 _ (ht 1) (by decide),
    fetchFeed_of_error_retry _ _ 2 _ (ht 2) (by decide),
    fetchFeed_of_error_last _ _ 3 _ (ht 3) (by decide)]

/-- C2: a parsed tree that has none of `rss.channel`, `feed` and `rdf:RDF`
(each is absent, or holds a falsy value such as the empty text of an empty
element, which the test of lines 42-43 does not tell from absent) makes
normalization fail with the unrecognized-format error; no article list is
produced. -/
theorem C2_no_root_shape_is_unrecognized (parsed : JVal)
    (hrss : truthy (prop (parsed.get "rss") "channel") = false)
    (hfeed : truthy (parsed.get "feed") = false)
    (hrdf : truthy (parsed.get "rdf:RDF") = false) :
    normalize parsed = .error UNRECOGNIZED ∧ ∀ list, normalize parsed ≠ .ok list := by
  have hch : channelOf parsed = parsed.get "rdf:RDF" := by
    simp [channelOf, jsOr, hrss, hfeed]
  have h : normalize parsed = .error UNRECOGNIZED := by
    unfold normalize
    rw [hch]
    cases hv : parsed.get "rdf:RDF" with
    | none => rfl
    | some v =>
      have hf : v.truthy = false := by simpa [hv, truthy] using hrdf
      simp [hf]
  exact ⟨h, fun list hl => by rw [h] at hl; cases hl⟩

/-- C2 at a concrete tree: an HTML page served in place of a feed, which has
no `rss`, `feed` or `rdf:RDF` key at all. -/
theorem C2_no_root_shape_is_unrecognized_witness :
    normalize (.obj [("html", .obj [("body", .str (utf16 "Not found"))])]) = .error UNRECOGNIZED ∧
    ∀ list, normalize (.obj [("html", .obj [("body", .str (utf16 "Not found"))])]) ≠ .ok list :=
  C2_no_root_shape_is_unrecognized _ rfl rfl rfl

/-- C3: when attempts 1, 2 and 3 of a source all fail, `fetchFeed` issues
exactly 3 requests (whatever a fourth attempt would have met), waits 2000 ms
and 4000 ms, and returns the source with no article and the message of the
third failure. -/
theorem C3_all_attempts_fail (feed : SourceDescriptor) (env : Nat → AttemptOutcome)
    (msg : Nat → String)
    (hfail : ∀ k, 1 ≤ k → k ≤ 3 → tryBlock (env k) = .error (msg k)) :
    fetchFeed feed env 1 =
      { result := { source := feed, articles := [], error := some (msg 3) },
        attempts := 3, delays := [2000, 4000] } := by
  rw [fetchFeed_of_error_retry _ _ 1 _ (hfail 1 (by decide) (by decide)) (by decide),
    fetchFeed_of_error_retry _ _ 2 _ (hfail 2 (by decide) (by decide)) (by decide),
    fetchFeed_of_error_last _ _ 3 _ (hfail 3 (by decide) (by decide)) (by decide)]

/-- C3 at a concrete source: a time-out, then HTTP 503, then HTTP 404; the
recorded error is the third message. -/
theorem C3_all_attempts_fail_witness :
    fetchFeed sampleSource
        (fun k => if k = 1 then .rejected "The operation was aborted due to timeout"
                  else if k = 2 then .response 503 (.error "") else .response 404 (.error ""))
        1 =
      { result := { source := sampleSource, articles := [], error := some "HTTP 404" },
        attempts := 3, delays := [2000, 4000] } :=
  C3_all_attempts_fail sampleSource _
    (fun k => if k = 1 then "The operation was aborted due to timeout"
              else if k = 2 then "HTTP 503" else "HTTP 404")
    (fun k h1 h3 => by
      have hk : k = 1 ∨ k = 2 ∨ k = 3 := by omega
      rcases hk with rfl | rfl | rfl <;> rfl)

/-- C4: for k in 1, 2, 3, when attempts 1 to k-1 fail and attempt k receives
a 2xx response whose tree normalizes to `list`, `fetchFeed` issues exactly k
requests, waits `n * 2000` ms before retry n (2000 ms then 4000 ms for
k = 3) and returns `list` with error `null`. -/
theorem C4_success_at_attempt (feed : SourceDescriptor) (env : Nat → AttemptOutcome)
    (k status : Nat) (parsed : JVal) (list : List RawArticle)
    (hk1 : 1 ≤ k) (hk3 : k ≤ 3)
    (hfail : ∀ j, 1 ≤ j → j < k → ∃ message, tryBlock (env j) = .error message)
    (hresp : env k = .response status (.ok parsed))
    (hstatus : 200 ≤ status ∧ status ≤ 299)
    (hnorm : normalize parsed = .ok list) :
    fetchFeed feed env 1 =
      { result := { source := feed, articles := list, error := none },
        attempts := k,
        delays := (List.range (k - 1)).map (fun n => (n + 1) * 2000) } ∧
    (k = 3 → (fetchFeed feed env 1).delays = [2000, 4000]) := by
  have hok : tryBlock (env k) = .ok list := by
    rw [hresp]
    simp only [tryBlock]
    rw [if_pos hstatus, hnorm]
  have hcases : k = 1 ∨ k = 2 ∨ k = 3 := by omega
  rcases hcases with rfl | rfl | rfl
  · rw [fetchFeed_of_ok _ _ 1 _ hok]
    exact ⟨rfl, fun h => absurd h (by decide)⟩
  · obtain ⟨m1, h1⟩ := hfail 1 (by decide) (by decide)
    rw [fetchFeed_of_error_retry _ _ 1 _ h1 (by decide), fetchFeed_of_ok _ _ 2 _ hok]
    exact ⟨rfl, fun h => absurd h (by decide)⟩
  · obtain ⟨m1, h1⟩ := hfail 1 (by decide) (by decide)
    obtain ⟨m2, h2⟩ := hfail 2 (by decide) (by decide)
    rw [fetchFeed_of_error_retry _ _ 1 _ h1 (by decide),
      fetchFeed_of_error_retry _ _ 2 _ h2 (by decide), fetchFeed_of_ok _ _ 3 _ hok]
    exact ⟨rfl, fun _ => rfl⟩

/-- C4 at a concrete source: a time-out, HTTP 500, then a feed with one
entry; three requests, waits of 2000 ms and 4000 ms, one article, no error. -/
theorem C4_success_at_attempt_witness :
    fetchFeed sampleSource
        (fun j => if j = 1 then .rejected "fetch failed"
                  else if j = 2 then .response 500 (.error "") else .response 200 (.ok oneItemDoc))
        1 =
      { result := { source := sampleSource,
                    articles := [{ title := utf16 "Hello",
                                   link := .str (utf16 "https://example.org/1"),
                                   pubDate := .str [], summary := [] }],
                    error := none },
        attempts := 3,
        delays := (List.range (3 - 1)).map (fun n => (n + 1) * 2000) } ∧
    (3 = 3 →
      (fetchFeed sampleSource
        (fun j => if j = 1 then .rejected "fetch failed"
                  else if j = 2 then .response 500 (.error "") else .response 200 (.ok oneItemDoc))
        1).delays = [2000, 4000]) :=
  C4_success_at_attempt sampleSource _ 3 200 oneItemDoc _ (by decide) (by decide)
    (fun j h1 h3 => by
      have hj : j = 1 ∨ j = 2 := by omega
      rcases hj with rfl | rfl
      · exact ⟨_, rfl⟩
      · exact ⟨_, rfl⟩)
    rfl (by decide) rfl

/-- C5 (counterexample): a source whose first attempt receives an RSS
channel without entries gets a result with an empty article list and error
`null`. -/
theorem C5_empty_articles_null_error :
    (fetchFeed sampleSource (fun _ => .response 200 (.ok emptyChannelDoc)) 1).result.articles = [] ∧
    (fetchFeed sampleSource (fun _ => .response 200 (.ok emptyChannelDoc)) 1).result.error = none := by
  have h : tryBlock ((fun _ : Nat => AttemptOutcome.response 200 (.ok emptyChannelDoc)) 1) =
      .ok [] := rfl
  rw [fetchFeed_of_ok _ _ 1 _ h]
  exact ⟨rfl, rfl⟩

/-- C5 (amended): for every source and every sequence of attempt outcomes, a
result with a non-null error has an empty article list; and a result with an
empty article list either has a non-null error or comes from an attempt (one
of the first three) that succeeded on a tree with no entries. -/
theorem C5_empty_articles_error_or_empty_feed (feed : SourceDescriptor)
    (env : Nat → AttemptOutcome) :
    ((fetchFeed feed env 1).result.error ≠ none → (fetchFeed feed env 1).result.articles = []) ∧
    ((fetchFeed feed env 1).result.articles = [] →
      (fetchFeed feed env 1).result.error ≠ none ∨
      ∃ k, 1 ≤ k ∧ k ≤ 3 ∧ tryBlock (env k) = .ok []) := by
  rcases tryBlock_cases (env 1) with ⟨l1, h1⟩ | ⟨m1, h1⟩
  · rw [fetchFeed_of_ok _ _ 1 _ h1]
    refine ⟨fun h => absurd rfl h, fun h => Or.inr ⟨1, by decide, by decide, ?_⟩⟩
    simp only at h
    rw [h1, h]
  · rw [fetchFeed_of_error_retry _ _ 1 _ h1 (by decide)]
    rcases tryBlock_cases (env 2) with ⟨l2, h2⟩ | ⟨m2, h2⟩
    · rw [fetchFeed_of_ok _ _ 2 _ h2]
      refine ⟨fun h => absurd rfl h, fun h => Or.inr ⟨2, by decide, by decide, ?_⟩⟩
      simp only at h
      rw [h2, h]
    · rw [fetchFeed_of_error_retry _ _ 2 _ h2 (by decide)]
      rcases tryBlock_cases (env 3) with ⟨l3, h3⟩ | ⟨m3, h3⟩
      · rw [fetchFeed_of_ok _ _ 3 _ h3]
        refine ⟨fun h => absurd rfl h, fun h => Or.inr ⟨3, by decide, by decide, ?_⟩⟩
        simp only at h
        rw [h3, h]
      · rw [fetchFeed_of_error_last _ _ 3 _ h3 (by decide)]
        exact ⟨fun _ => rfl, fun _ => Or.inl (by simp)⟩

/-- C5 (amended) at a source whose three attempts all fail: the error is
non-null and the article list is empty. -/
theorem C5_empty_articles_error_or_empty_feed_witness :
    (fetchFeed sampleSource (fun _ => .rejected "fetch failed") 1).result.error ≠ none ∧
    (fetchFeed sampleSource (fun _ => .rejected "fetch failed") 1).result.articles = [] := by
  have herr : (fetchFeed sampleSource (fun _ => .rejected "fetch failed") 1).result.error ≠
      none := by
    rw [fetchFeed_of_error_retry sampleSource (fun _ => .rejected "fetch failed") 1
        "fetch failed" rfl (by decide),
      fetchFeed_of_error_retry sampleSource (fun _ => .rejected "fetch failed") 2
        "fetch failed" rfl (by decide),
      fetchFeed_of_error_last sampleSource (fun _ => .rejected "fetch failed") 3
        "fetch failed" rfl (by decide)]
    simp
  exact ⟨herr, (C5_empty_articles_error_or_empty_feed sampleSource _).1 herr⟩

/-- C6: for a source list of any length n, when every fetch completes (in
whatever order within its group), `fetchAllInBatches` returns exactly n
results, and result i is the result of `fetchFeed` on source i, which carries
source i unchanged, whichever fetches fail. -/
theorem C6_results_in_input_order (feedList : List SourceDescriptor)
    (env : Nat → Nat → AttemptOutcome) (order : Nat → List Nat)
    (hsettle : EveryFetchSettles feedList.length order) :
    ∃ run, fetchAllInBatches feedList env order = some run ∧
      run.results.length = feedList.length ∧
      ∀ (i : Nat) (hi : i < feedList.length),
        run.results[i]? = some (fetchFeed feedList[i] (env i) 1).result ∧
        (fetchFeed feedList[i] (env i) 1).result.source = feedList[i] := by
  obtain ⟨run, hrun, hres⟩ := fetchAllInBatches_results feedList env order hsettle
  refine ⟨run, hrun, ?_, ?_⟩
  · rw [hres]; simp [fetchEach]
  · intro i hi
    rw [hres]
    exact ⟨getElem?_fetchEach feedList env i hi, fetchFeed_source _ _⟩

/-- C6 at ten sources (not a multiple of 8), some of them failing, the
fetches of each group completing last to first. -/
theorem C6_results_in_input_order_witness :
    ∃ run, fetchAllInBatches tenSources sampleEnv reverseOrder = some run ∧
      run.results.length = tenSources.length ∧
      ∀ (i : Nat) (hi : i < tenSources.length),
        run.results[i]? = some (fetchFeed tenSources[i] (sampleEnv i) 1).result ∧
        (fetchFeed tenSources[i] (sampleEnv i) 1).result.source = tenSources[i] :=
  C6_results_in_input_order tenSources sampleEnv reverseOrder reverseOrder_settles

/-- C7: two runs over source lists that have the same source at position i,
and in which the attempts 1 to 3 of source i meet the same outcomes, both
return, with one result per source, and give source i the same result,
whatever the other sources are and do and whatever the completion orders. -/
theorem C7_result_depends_on_own_source (feeds feeds' : List SourceDescriptor)
    (env env' : Nat → Nat → AttemptOutcome) (order order' : Nat → List Nat)
    (hsettle : EveryFetchSettles feeds.length order)
    (hsettle' : EveryFetchSettles feeds'.length order')
    (i : Nat) (hi : i < feeds.length) (hi' : i < feeds'.length)
    (hsource : feeds[i] = feeds'[i])
    (houtcomes : ∀ k, 1 ≤ k → k ≤ 3 → env i k = env' i k) :
    ∃ run run', fetchAllInBatches feeds env order = some run ∧
      fetchAllInBatches feeds' env' order' = some run' ∧
      run.results.length = feeds.length ∧ run'.results.length = feeds'.length ∧
      run.results[i]? = run'.results[i]? ∧
      run.results[i]? = some (fetchFeed feeds[i] (env i) 1).result := by
  obtain ⟨run, hrun, hres⟩ := fetchAllInBatches_results feeds env order hsettle
  obtain ⟨run', hrun', hres'⟩ := fetchAllInBatches_results feeds' env' order' hsettle'
  refine ⟨run, run', hrun, hrun', ?_, ?_, ?_, ?_⟩
  · rw [hres]; simp [fetchEach]
  · rw [hres']; simp [fetchEach]
  · rw [hres, hres', getElem?_fetchEach feeds env i hi, getElem?_fetchEach feeds' env' i hi',
      ← hsource, fetchFeed_congr feeds[i] (env i) (env' i) houtcomes]
  · rw [hres, getElem?_fetchEach feeds env i hi]

/-- C7 at ten sources and position 4: in the second run source 0 answers
instead of failing, source 3 still fails and the completion order differs. -/
theorem C7_result_depends_on_own_source_witness :
    ∃ run run', fetchAllInBatches tenSources sampleEnv reverseOrder = some run ∧
      fetchAllInBatches tenSources otherEnv forwardOrder = some run' ∧
      run.results.length = tenSources.length ∧ run'.results.length = tenSources.length ∧
      run.results[4]? = run'.results[4]? ∧
      run.results[4]? = some (fetchFeed (tenSources.get ⟨4, by decide⟩) (sampleEnv 4) 1).result :=
  C7_result_depends_on_own_source tenSources tenSources sampleEnv otherEnv reverseOrder
    forwardOrder reverseOrder_settles forwardOrder_settles 4 (by decide) (by decide) rfl
    (fun _ _ _ => rfl)

/-- C8 (counterexample): a result whose error is the empty message, which is
not `null`, is counted as a success: `successCount` is 1 while no result has
a null error. -/
theorem C8_empty_message_counted_as_success :
    (aggregate [sampleSource]
      [{ source := sampleSource, articles := [], error := some "" }]).successCount = 1 ∧
    (([{ source := sampleSource, articles := [], error := some "" }] :
      List SourceResult).filter (fun r => r.error.isNone)).length = 0 := by
  exact ⟨rfl, rfl⟩

/-- C8 (amended): `successCount` is the number of results whose error is
falsy, that is `null` or the empty message; with one result per source,
`successCount < feedCount` holds exactly when some result has a non-empty
error message; and when no result has the empty message as its error,
`successCount` is the number of results with a null error and
`successCount < feedCount` holds exactly when some result has a non-null
error. -/
theorem C8_successCount_counts_falsy_errors (feeds : List SourceDescriptor)
    (results : List SourceResult) (hlen : results.length = feeds.length) :
    (aggregate feeds results).successCount =
      (results.filter (fun r => r.error.isNone || r.error == some "")).length ∧
    ((aggregate feeds results).successCount < (aggregate feeds results).feedCount ↔
      ∃ r ∈ results, ∃ message, r.error = some message ∧ message ≠ "") ∧
    ((∀ r ∈ results, r.error ≠ some "") →
      (aggregate feeds results).successCount =
        (results.filter (fun r => r.error.isNone)).length ∧
      ((aggregate feeds results).successCount < (aggregate feeds results).feedCount ↔
        ∃ r ∈ results, r.error ≠ none)) := by
  have hfalsy : ∀ e : Option String, (!errorTruthy e) = (e.isNone || e == some "") := by
    intro e
    cases e with
    | none => rfl
    | some message =>
      by_cases hm : message = ""
      · subst hm; rfl
      · simp [errorTruthy, bne, hm]
  have hlt : (aggregate feeds results).successCount < (aggregate feeds results).feedCount ↔
      ∃ r ∈ results, ∃ message, r.error = some message ∧ message ≠ "" := by
    simp only [aggregate]
    rw [← hlen, List.length_filter_lt_length_iff_exists]
    constructor
    · rintro ⟨r, hr, hnot⟩
      refine ⟨r, hr, ?_⟩
      cases he : r.error with
      | none => simp [he, errorTruthy] at hnot
      | some message =>
        refine ⟨message, rfl, ?_⟩
        intro hm
        simp [he, errorTruthy, hm] at hnot
    · rintro ⟨r, hr, message, he, hm⟩
      exact ⟨r, hr, by simp [he, errorTruthy, hm]⟩
  refine ⟨?_, hlt, ?_⟩
  · simp only [aggregate, hfalsy]
  · intro hne
    constructor
    · simp only [aggregate]
      congr 1
      apply List.filter_congr
      intro r hr
      rw [hfalsy]
      have := hne r hr
      cases he : r.error with
      | none => rfl
      | some message =>
        have hm : message ≠ "" := fun h => this (by rw [he, h])
        simp [hm]
    · rw [hlt]
      constructor
      · rintro ⟨r, hr, message, he, _⟩
        exact ⟨r, hr, by rw [he]; simp⟩
      · rintro ⟨r, hr, hnone⟩
        cases he : r.error with
        | none => exact absurd he hnone
        | some message =>
          exact ⟨r, hr, message, he, fun h => hne r hr (by rw [he, h])⟩

/-- C8 (amended) at three results, one of them failed: `successCount` is 2. -/
theorem C8_successCount_counts_falsy_errors_witness :
    (aggregate threeSources threeResults).successCount = 2 ∧
    (aggregate threeSources threeResults).successCount <
      (aggregate threeSources threeResults).feedCount := by
  have h := C8_successCount_counts_falsy_errors threeSources threeResults rfl
  refine ⟨h.1.trans rfl, h.2.1.mpr ?_⟩
  exact ⟨_, List.mem_cons_of_mem _ (List.mem_cons_of_mem _ (List.mem_singleton.mpr rfl)),
    "The operation was aborted due to timeout", rfl, by decide⟩

/-- C9: with one result per source, the counts of the report agree:
`articleCount` is the sum of the lengths of the results' article lists, the
sum of `feeds[i].articleCount` and the length of the flattened `articles`;
`feedCount` is the number of results and the length of `feeds`. -/
theorem C9_counts_agree (feeds : List SourceDescriptor) (results : List SourceResult)
    (hlen : results.length = feeds.length) :
    (aggregate feeds results).articleCount = (results.map (fun r => r.articles.length)).sum ∧
    (aggregate feeds results).articleCount =
      ((aggregate feeds results).feeds.map (fun s => s.articleCount)).sum ∧
    (aggregate feeds results).articleCount = (aggregate feeds results).articles.length ∧
    (aggregate feeds results).feedCount = results.length ∧
    (aggregate feeds results).feedCount = (aggregate feeds results).feeds.length := by
  have hcount : (aggregate feeds results).articleCount =
      (results.map (fun r => r.articles.length)).sum := by
    simp only [aggregate, foldl_add_length, Nat.zero_add]
  refine ⟨hcount, ?_, ?_, ?_, ?_⟩
  · rw [hcount]
    simp only [aggregate, List.map_map]
    rfl
  · rw [hcount]
    simp only [aggregate, length_flatMap_stamp]
  · simp only [aggregate, hlen]
  · simp only [aggregate, List.length_map, hlen]

/-- C9 at three results with 2, 1 and 0 articles: 3 articles, 3 feeds. -/
theorem C9_counts_agree_witness :
    (aggregate threeSources threeResults).articleCount = 3 ∧
    (aggregate threeSources threeResults).articles.length = 3 ∧
    (aggregate threeSources threeResults).feedCount = 3 ∧
    (aggregate threeSources threeResults).feeds.length = 3 := by
  have h := C9_counts_agree threeSources threeResults rfl
  exact ⟨h.1.trans rfl, h.2.2.1.symm.trans (h.1.trans rfl), h.2.2.2.1.trans rfl,
    h.2.2.2.2.symm.trans (h.2.2.2.1.trans rfl)⟩

/-- C10: the flattened `articles` list is the concatenation, in result
order, of the articles of each result in their order: its length is the sum
of the lengths, and article j of result i stands at position (number of
articles of the results before i) + j, with its title, link, pubDate and
summary unchanged and with the id, name, nameZh, category, color and lang of
result i.  A result with no article contributes nothing, so when the source
ids are pairwise distinct no flattened article carries the id of a result
without articles (every failed source is one). -/
theorem C10_flattened_articles (feeds : List SourceDescriptor) (results : List SourceResult) :
    (aggregate feeds results).articles.length =
      (results.map (fun r => r.articles.length)).sum ∧
    (∀ (i j : Nat) (hi : i < results.length) (hj : j < results[i].articles.length),
      (aggregate feeds results).articles[
          ((results.take i).map (fun r => r.articles.length)).sum + j]? =
        some { feedId := results[i].source.id, feedName := results[i].source.name,
               feedNameZh := results[i].source.nameZh, category := results[i].source.category,
               color := results[i].source.color, lang := results[i].source.lang,
               title := results[i].articles[j].title, link := results[i].articles[j].link,
               pubDate := results[i].articles[j].pubDate,
               summary := results[i].articles[j].summary }) ∧
    (∀ r ∈ results, r.articles = [] → (results.map (fun x => x.source.id)).Nodup →
      ∀ a ∈ (aggregate feeds results).articles, a.feedId ≠ r.source.id) := by
  refine ⟨?_, ?_, ?_⟩
  · simp only [aggregate, length_flatMap_stamp]
  · intro i j hi hj
    have hj' : j < ((fun r : SourceResult => r.articles.map (stamp r)) results[i]).length := by
      simpa using hj
    have h := getElem?_flatMap_offset (fun r : SourceResult => r.articles.map (stamp r))
      results i j hi hj'
    simp only [List.length_map] at h
    simp only [aggregate]
    rw [h, List.getElem?_map, List.getElem?_eq_getElem hj]
    rfl
  · intro r hr hempty hnodup a ha hid
    simp only [aggregate, List.mem_flatMap, List.mem_map] at ha
    obtain ⟨r', hr', a', ha', rfl⟩ := ha
    have hsame : r' = r := List.inj_on_of_nodup_map hnodup hr' hr hid
    rw [hsame, hempty] at ha'
    cases ha'

/-- C10 at three results (2, 1 and 0 articles, ids a, b, c): the second
article of result a stands at position 1, the article of result b at
position 2, and no flattened article carries the id c of the failed
source. -/
theorem C10_flattened_articles_witness :
    (aggregate threeSources threeResults).articles.length = 3 ∧
    (aggregate threeSources threeResults).articles[1]? =
      some { feedId := "a", feedName := "Example", feedNameZh := "示例", category := "tech",
             color := "#ff6600", lang := "en", title := utf16 "Two",
             link := .str (utf16 "https://example.org/2"), pubDate := .str [], summary := [] } ∧
    (aggregate threeSources threeResults).articles[2]? =
      some { feedId := "b", feedName := "Example", feedNameZh := "示例", category := "tech",
             color := "#ff6600", lang := "en", title := utf16 "Three",
             link := .str [], pubDate := .num 2024, summary := utf16 "text" } ∧
    ∀ a ∈ (aggregate threeSources threeResults).articles, a.feedId ≠ "c" := by
  have h := C10_flattened_articles threeSources threeResults
  refine ⟨h.1.trans rfl, h.2.1 0 1 (by decide) (by decide), h.2.1 1 0 (by decide) (by decide), ?_⟩
  exact h.2.2 _ (List.mem_cons_of_mem _ (List.mem_cons_of_mem _ (List.mem_singleton.mpr rfl)))
    rfl (by decide)

/-- C11 (evaluation at the failing input): with the entry
`numericTitleEntry`, whose structured title has the numeric text payload
2024, as the single entry container of an RSS channel, normalization yields
no article but the `TypeError` of `title.trim()`; with the one-element
sequence of that entry it yields the same error. -/
theorem C11_single_entry_numeric_title_no_article :
    normalize (rssDocWith numericTitleEntry) = .error TRIM_TYPE_ERROR ∧
    normalize (rssDocWith (.arr [numericTitleEntry])) = .error TRIM_TYPE_ERROR ∧
    normalize (rssDocWith plainEntry) = normalize (rssDocWith (.arr [plainEntry])) ∧
    (normalize (rssDocWith plainEntry)).toOption.map List.length = some 1 :=
  ⟨rfl, rfl, rfl, rfl⟩

/-- C12 (counterexample): a tree with an RSS channel that has no `item`,
next to an `rdf:RDF` root with one `item`, normalizes to the one article of
the RDF entry, not to the empty list; and an RSS channel that has no `item`
but an `entry` normalizes to the article of that entry. -/
theorem C12_rss_without_item_uses_other_entries :
    truthy (prop (rssAndRdfDoc.get "rss") "channel") = true ∧
    prop (prop (rssAndRdfDoc.get "rss") "channel") "item" = none ∧
    normalize rssAndRdfDoc =
      .ok [{ title := utf16 "Hello", link := .str (utf16 "https://example.org/1"),
             pubDate := .str [], summary := [] }] ∧
    truthy (prop (rssEntryDoc.get "rss") "channel") = true ∧
    prop (prop (rssEntryDoc.get "rss") "channel") "item" = none ∧
    normalize rssEntryDoc =
      .ok [{ title := utf16 "Hello", link := .str (utf16 "https://example.org/1"),
             pubDate := .str [], summary := [] }] :=
  ⟨rfl, rfl, rfl, rfl, rfl, rfl⟩

/-- C12 (amended): when `rss.channel` is present and truthy, the document is
read through it: the entries are those at `rss.channel.item` when that is
truthy; failing that those at `rss.channel.entry`, failing that those at
`rdf:RDF.item`, and the article list is empty when all three are absent or
falsy.  Nothing else of the tree is used: `feed`, `feed.entry` and every
other key do not change the result. -/
theorem C12_rss_channel_entries (parsed channel : JVal)
    (hch : prop (parsed.get "rss") "channel" = some channel)
    (htruthy : channel.truthy = true) :
    (∀ items, channel.get "item" = some items → items.truthy = true →
      normalize parsed = (asList items).mapM normalizeItem) ∧
    (truthy (channel.get "item") = false →
      ∀ items, channel.get "entry" = some items → items.truthy = true →
        normalize parsed = (asList items).mapM normalizeItem) ∧
    (truthy (channel.get "item") = false → truthy (channel.get "entry") = false →
      ∀ items, prop (parsed.get "rdf:RDF") "item" = some items → items.truthy = true →
        normalize parsed = (asList items).mapM normalizeItem) ∧
    (truthy (channel.get "item") = false → truthy (channel.get "entry") = false →
      truthy (prop (parsed.get "rdf:RDF") "item") = false → normalize parsed = .ok []) ∧
    (∀ parsed' : JVal, prop (parsed'.get "rss") "channel" = some channel →
      prop (parsed'.get "rdf:RDF") "item" = prop (parsed.get "rdf:RDF") "item" →
      normalize parsed' = normalize parsed) := by
  have hn : ∀ p : JVal, prop (p.get "rss") "channel" = some channel →
      normalize p = (asList (itemsOf p channel)).mapM normalizeItem := fun p hp =>
    normalize_of_channel p channel (channelOf_of_rss p channel hp htruthy) htruthy
  refine ⟨?_, ?_, ?_, ?_, ?_⟩
  · intro items hitem ht
    have htr : truthy (channel.get "item") = true := by rw [hitem]; exact ht
    rw [hn parsed hch, itemsOf, jsOr_of_truthy _ _ htr, jsOr_of_truthy _ _ htr, hitem,
      jsOrD_of_truthy _ _ ht]
  · intro hno items hentry ht
    have htr : truthy (channel.get "entry") = true := by rw [hentry]; exact ht
    rw [hn parsed hch, itemsOf, jsOr_of_falsy _ _ hno, jsOr_of_truthy _ _ htr, hentry,
      jsOrD_of_truthy _ _ ht]
  · intro hno hno' items hrdf ht
    rw [hn parsed hch, itemsOf, jsOr_of_falsy _ _ hno, jsOr_of_falsy _ _ hno', hrdf,
      jsOrD_of_truthy _ _ ht]
  · intro hno hno' hno''
    rw [hn parsed hch, itemsOf, jsOr_of_falsy _ _ hno, jsOr_of_falsy _ _ hno',
      jsOrD_of_falsy _ _ hno'']
    rfl
  · intro parsed' hch' hrdf
    rw [hn parsed hch, hn parsed' hch']
    simp [itemsOf, hrdf]

/-- C12 (amended) at an RSS tree with one entry at `rss.channel.item`. -/
theorem C12_rss_channel_entries_witness :
    normalize oneItemDoc =
      [JVal.obj [("title", .str (utf16 " Hello ")),
                 ("link", .str (utf16 "https://example.org/1"))]].mapM normalizeItem :=
  (C12_rss_channel_entries oneItemDoc
    (.obj [("item", .obj [("title", .str (utf16 " Hello ")),
                          ("link", .str (utf16 "https://example.org/1"))])]) rfl rfl).1 _ rfl rfl

/-- C13 (evaluation at the failing input): an RSS channel whose `item` is the
sequence of a plain entry and of `numericTitleEntry` normalizes to no article
at all, with the `TypeError` of `title.trim()`, instead of to two articles;
the plain entry alone normalizes to one article. -/
theorem C13_sequence_with_numeric_title_drops_all :
    normalize (rssDocWith (.arr [plainEntry, numericTitleEntry])) = .error TRIM_TYPE_ERROR ∧
    normalize (rssDocWith (.arr [plainEntry])) =
      .ok [{ title := utf16 "Hello", link := .str (utf16 "https://example.org/1"),
             pubDate := .str [], summary := [] }] :=
  ⟨rfl, rfl⟩

/-- C14 (counterexample): in the sequence `self` with href A, `alternate`
without href, `alternate` with href B, an element has relation `alternate`
and the non-empty href B, yet the extracted link is A, the href of the first
element of the sequence. -/
theorem C14_first_alternate_without_href_falls_back :
    linkOf alternateWithoutHrefEntry = .str (utf16 "A") ∧
    linkOf alternateWithoutHrefEntry ≠ .str (utf16 "B") := by
  have h : linkOf alternateWithoutHrefEntry = .str (utf16 "A") := rfl
  refine ⟨h, ?_⟩
  rw [h]
  intro hAB
  injection hAB with hAB
  exact absurd hAB (by decide)

/-- C14 (amended): when the link of an entry is a sequence, and `l` is its
first element with relation attribute `alternate`, wherever it stands: if the
href of `l` is non-empty (truthy), the extracted link is that href; if `l`
has no href or an empty one, the extracted link is the href of the first
element of the sequence when that is non-empty, and the empty string
otherwise. -/
theorem C14_first_alternate_href (item l : JVal) (pre post : List JVal)
    (hlink : item.get "link" = some (.arr (pre ++ l :: post)))
    (hpre : ∀ x ∈ pre, x.get "@_rel" ≠ some (.str (utf16 "alternate")))
    (hrel : l.get "@_rel" = some (.str (utf16 "alternate"))) :
    (∀ h, l.get "@_href" = some h → h.truthy = true → linkOf item = h) ∧
    (truthy (l.get "@_href") = false →
      (∀ first h, (pre ++ l :: post).head? = some first → first.get "@_href" = some h →
        h.truthy = true → linkOf item = h) ∧
      (truthy (prop (pre ++ l :: post).head? "@_href") = false → linkOf item = .str [])) := by
  have hfind := find?_first_alternate pre post l hpre hrel
  have hl := linkOf_arr item _ hlink
  rw [hfind] at hl
  refine ⟨?_, ?_⟩
  · intro h hh ht
    have hp : prop (some l) "@_href" = some h := hh
    rw [hl, hp, jsOr_of_truthy _ _ (by rw [truthy_some]; exact ht), jsOrD_of_truthy _ _ ht]
  · intro hno
    have hp : truthy (prop (some l) "@_href") = false := hno
    rw [jsOr_of_falsy _ _ hp] at hl
    refine ⟨?_, ?_⟩
    · intro first h hfirst hh ht
      have hq : prop (pre ++ l :: post).head? "@_href" = some h := by
        rw [hfirst]; exact hh
      rw [hl, hq, jsOrD_of_truthy _ _ ht]
    · intro hno'
      rw [hl, jsOrD_of_falsy _ _ hno']

/-- C14 (amended) at the sequence `self` with href A, `alternate` with href
B: the extracted link is B. -/
theorem C14_first_alternate_href_witness :
    linkOf atomLinksEntry = .str (utf16 "B") :=
  (C14_first_alternate_href atomLinksEntry (linkElement "alternate" "B")
    [linkElement "self" "A"] [] rfl
    (fun x hx h => by
      rw [List.mem_singleton.mp hx] at h
      have h' : utf16 "self" = utf16 "alternate" := by
        injection h with h
        injection h
      exact absurd h' (by decide))
    rfl).1 _ rfl rfl

/-- C15: when the summary source of an entry is the plain text `s`, the
summary is the first 500 units of `t`, the text `s` with the tags removed and
then trimmed; its length is `min 500 (length of t)`, hence exactly 500 when
`t` has 600 units; and no summary, of any entry, is longer than 500.  (A
unit is a UTF-16 code unit, which is what `slice` counts.) -/
theorem C15_summary_truncation (item : JVal) (s : JStr) (hdesc : descOf item = .str s) :
    summaryOf item = (trim (stripTags s)).take 500 ∧
    (summaryOf item).length = min 500 (trim (stripTags s)).length ∧
    ((trim (stripTags s)).length = 600 → (summaryOf item).length = 500) ∧
    (∀ other : JVal, (summaryOf other).length ≤ 500) := by
  have hs := summaryOf_of_str item s hdesc
  have hlen : (summaryOf item).length = min 500 (trim (stripTags s)).length := by
    rw [hs, List.length_take]
  refine ⟨hs, hlen, ?_, ?_⟩
  · intro h600
    rw [hlen, h600]
    rfl
  · intro other
    unfold summaryOf
    split
    · simp only [slice0, List.length_take]
      exact Nat.min_le_left _ _
    · simp

set_option maxRecDepth 100000 in
/-- C15 at a description of 600 letters in a paragraph element: the
summary is the first 500 letters. -/
theorem C15_summary_truncation_witness :
    (trim (stripTags longDescription)).length = 600 ∧
    (summaryOf (.obj [("description", .str longDescription)])).length = 500 ∧
    summaryOf (.obj [("description", .str longDescription)]) = List.replicate 500 97 := by
  have h600 : (trim (stripTags longDescription)).length = 600 := by decide
  have h := C15_summary_truncation (.obj [("description", .str longDescription)])
    longDescription rfl
  refine ⟨h600, h.2.2.1 h600, ?_⟩
  rw [h.1]
  decide

/-- C16: when the summary source of an entry is a plain text `s`, the
summary contains no span made of `<`, one or more units other than `>`, and
`>`; a second stripping pass changes neither the summary nor the stripped
text; the summary is cut from the stripped text. -/
theorem C16_summary_has_no_tag (item : JVal) (s : JStr) (hdesc : descOf item = .str s) :
    (∀ pre body post : JStr, body ≠ [] → (∀ c ∈ body, c ≠ GT_UNIT) →
      summaryOf item ≠ pre ++ LT_UNIT :: (body ++ GT_UNIT :: post)) ∧
    stripTags (summaryOf item) = summaryOf item ∧
    stripTags (stripTags s) = stripTags s ∧
    summaryOf item = (trim (stripTags s)).take 500 := by
  refine ⟨?_, ?_, ?_, summaryOf_of_str item s hdesc⟩
  · intro pre body post hne hno heq
    have h1 := hasTag_summaryOf item
    rw [heq, hasTag_of_span pre body post hne hno] at h1
    cases h1
  · exact stripTags_of_hasTag_false _ (hasTag_summaryOf item)
  · exact stripTags_of_hasTag_false _ (hasTag_stripScan false s)

/-- C16 at a description with nested and adjacent tags: one pass leaves
`>xy`, which a second pass does not change. -/
theorem C16_summary_has_no_tag_witness :
    summaryOf (.obj [("description", .str nestedTagsDescription)]) = utf16 ">xy" ∧
    stripTags (summaryOf (.obj [("description", .str nestedTagsDescription)])) =
      summaryOf (.obj [("description", .str nestedTagsDescription)]) ∧
    stripTags (stripTags nestedTagsDescription) = stripTags nestedTagsDescription :=
  ⟨rfl, (C16_summary_has_no_tag (.obj [("description", .str nestedTagsDescription)])
      nestedTagsDescription rfl).2.1,
    (C16_summary_has_no_tag (.obj [("description", .str nestedTagsDescription)])
      nestedTagsDescription rfl).2.2.1⟩

/-- C17: the summary source of an entry is the first non-empty (truthy) of
`description`, `summary` and `content`, in that order; when that value is not
plain text the summary is the empty string, whatever the later fields hold;
when all three are absent or empty the summary is the empty string; and the
summary is what the article carries. -/
theorem C17_summary_source (item : JVal) :
    (∀ v, item.get "description" = some v → v.truthy = true → descOf item = v) ∧
    (truthy (item.get "description") = false →
      ∀ v, item.get "summary" = some v → v.truthy = true → descOf item = v) ∧
    (truthy (item.get "description") = false → truthy (item.get "summary") = false →
      ∀ v, item.get "content" = some v → v.truthy = true → descOf item = v) ∧
    ((∀ s, descOf item ≠ .str s) → summaryOf item = []) ∧
    (∀ v, item.get "description" = some v → v.truthy = true → (∀ s, v ≠ .str s) →
      summaryOf item = []) ∧
    (truthy (item.get "description") = false → truthy (item.get "summary") = false →
      truthy (item.get "content") = false → descOf item = .str [] ∧ summaryOf item = []) ∧
    (∀ a, normalizeItem item = .ok a → a.summary = summaryOf item) := by
  have hd1 : ∀ v, item.get "description" = some v → v.truthy = true → descOf item = v := by
    intro v hv ht
    have h1 : truthy (item.get "description") = true := by rw [hv]; exact ht
    rw [descOf, jsOr_of_truthy _ _ h1, jsOr_of_truthy _ _ h1, hv, jsOrD_of_truthy _ _ ht]
  have hnot : (∀ s, descOf item ≠ .str s) → summaryOf item = [] := by
    intro hno
    unfold summaryOf
    split
    · rename_i s hs; exact absurd hs (hno s)
    · rfl
  refine ⟨hd1, ?_, ?_, hnot, ?_, ?_, ?_⟩
  · intro h1 v hv ht
    have h2 : truthy (item.get "summary") = true := by rw [hv]; exact ht
    rw [descOf, jsOr_of_falsy _ _ h1, jsOr_of_truthy _ _ h2, hv, jsOrD_of_truthy _ _ ht]
  · intro h1 h2 v hv ht
    rw [descOf, jsOr_of_falsy _ _ h1, jsOr_of_falsy _ _ h2, hv, jsOrD_of_truthy _ _ ht]
  · intro v hv ht hnostr
    exact hnot (fun s hs => hnostr s (by rw [← hd1 v hv ht, hs]))
  · intro h1 h2 h3
    have hd : descOf item = .str [] := by
      rw [descOf, jsOr_of_falsy _ _ h1, jsOr_of_falsy _ _ h2, jsOrD_of_falsy _ _ h3]
    refine ⟨hd, ?_⟩
    unfold summaryOf
    rw [hd]
    rfl
  · intro a ha
    unfold normalizeItem at ha
    split at ha
    · cases ha; rfl
    · cases ha

/-- C17 at an entry whose `description` is a structured element and whose
`summary` is plain text: the summary is empty. -/
theorem C17_summary_source_witness :
    summaryOf (.obj [("description", .obj [("div", .str (utf16 "Rich text"))]),
                     ("summary", .str (utf16 "Plain text"))]) = [] :=
  (C17_summary_source
    (.obj [("description", .obj [("div", .str (utf16 "Rich text"))]),
           ("summary", .str (utf16 "Plain text"))])).2.2.2.2.1
    (.obj [("div", .str (utf16 "Rich text"))]) rfl rfl (fun s h => by cases h)

/-- C18 (evaluation at the failing input): the entry `numericTitleEntry` has
a structured title whose text payload is the number 2024; the title computed
at lines 49-51 is that number, and `title.trim()` raises the `TypeError`
instead of returning a title; with the payload `"  2024 "` as text the title
is `2024`. -/
theorem C18_numeric_title_payload_no_title :
    titleOf numericTitleEntry = .num 2024 ∧
    normalizeItem numericTitleEntry = .error TRIM_TYPE_ERROR ∧
    (normalizeItem (.obj [("title", .obj [("#text", .str (utf16 "  2024 ")),
        ("@_type", .str (utf16 "html"))])])).toOption.map (fun a => a.title) =
      some (utf16 "2024") :=
  ⟨rfl, rfl, rfl⟩

/-- C19: the publication date of an entry is the value of the first
non-empty (truthy) field among `pubDate`, `published`, `updated` and
`dc:date`, in that order, that very value; it is the empty string when none
of the four is present and non-empty; and it is what the article carries. -/
theorem C19_pubDate_first_non_empty (item : JVal) :
    (∀ v, item.get "pubDate" = some v → v.truthy = true → pubDateOf item = v) ∧
    (truthy (item.get "pubDate") = false →
      ∀ v, item.get "published" = some v → v.truthy = true → pubDateOf item = v) ∧
    (truthy (item.get "pubDate") = false → truthy (item.get "published") = false →
      ∀ v, item.get "updated" = some v → v.truthy = true → pubDateOf item = v) ∧
    (truthy (item.get "pubDate") = false → truthy (item.get "published") = false →
      truthy (item.get "updated") = false →
      ∀ v, item.get "dc:date" = some v → v.truthy = true → pubDateOf item = v) ∧
    (truthy (item.get "pubDate") = false → truthy (item.get "published") = false →
      truthy (item.get "updated") = false → truthy (item.get "dc:date") = false →
      pubDateOf item = .str []) ∧
    (∀ a, normalizeItem item = .ok a → a.pubDate = pubDateOf item) := by
  refine ⟨?_, ?_, ?_, ?_, ?_, ?_⟩
  · intro v hv ht
    have h1 : truthy (item.get "pubDate") = true := by rw [hv]; exact ht
    rw [pubDateOf, jsOr_of_truthy _ _ h1, jsOr_of_truthy _ _ h1, jsOr_of_truthy _ _ h1, hv,
      jsOrD_of_truthy _ _ ht]
  · intro h1 v hv ht
    have h2 : truthy (item.get "published") = true := by rw [hv]; exact ht
    rw [pubDateOf, jsOr_of_falsy _ _ h1, jsOr_of_truthy _ _ h2, jsOr_of_truthy _ _ h2, hv,
      jsOrD_of_truthy _ _ ht]
  · intro h1 h2 v hv ht
    have h3 : truthy (item.get "updated") = true := by rw [hv]; exact ht
    rw [pubDateOf, jsOr_of_falsy _ _ h1, jsOr_of_falsy _ _ h2, jsOr_of_truthy _ _ h3, hv,
      jsOrD_of_truthy _ _ ht]
  · intro h1 h2 h3 v hv ht
    rw [pubDateOf, jsOr_of_falsy _ _ h1, jsOr_of_falsy _ _ h2, jsOr_of_falsy _ _ h3, hv,
      jsOrD_of_truthy _ _ ht]
  · intro h1 h2 h3 h4
    rw [pubDateOf, jsOr_of_falsy _ _ h1, jsOr_of_falsy _ _ h2, jsOr_of_falsy _ _ h3,
      jsOrD_of_falsy _ _ h4]
  · intro a ha
    unfold normalizeItem at ha
    split at ha
    · cases ha; rfl
    · cases ha

/-- C19 at an Atom entry with `published` and `updated` and no `pubDate`:
the date is the `published` value as written. -/
theorem C19_pubDate_first_non_empty_witness :
    pubDateOf (.obj [("updated", .str (utf16 "2024-05-02T10:00:00Z")),
                     ("published", .str (utf16 " 2024-05-01T08:00:00Z "))]) =
      .str (utf16 " 2024-05-01T08:00:00Z ") :=
  (C19_pubDate_first_non_empty
    (.obj [("updated", .str (utf16 "2024-05-02T10:00:00Z")),
           ("published", .str (utf16 " 2024-05-01T08:00:00Z "))])).2.1 rfl _ rfl rfl

/-- C20: for an entry whose link is not a sequence with an `alternate`
element: a plain string is the link itself; a sequence without `alternate`
element gives the href of its first element when that is non-empty (truthy);
any other value (a single object, also a number or boolean) gives its href
when non-empty; and every other case gives the empty string: link absent, no
href or an empty one, an empty sequence, a first element without href. -/
theorem C20_link_without_alternate (item : JVal) :
    (∀ s, item.get "link" = some (.str s) → linkOf item = .str s) ∧
    (∀ ls, item.get "link" = some (.arr ls) →
      (∀ x ∈ ls, x.get "@_rel" ≠ some (.str (utf16 "alternate"))) →
      (∀ first h, ls.head? = some first → first.get "@_href" = some h → h.truthy = true →
        linkOf item = h) ∧
      (truthy (prop ls.head? "@_href") = false → linkOf item = .str [])) ∧
    (∀ v, item.get "link" = some v → (∀ s, v ≠ .str s) → (∀ ls, v ≠ .arr ls) →
      (∀ h, v.get "@_href" = some h → h.truthy = true → linkOf item = h) ∧
      (truthy (v.get "@_href") = false → linkOf item = .str [])) ∧
    (item.get "link" = none → linkOf item = .str []) := by
  refine ⟨?_, ?_, ?_, ?_⟩
  · intro s hs
    simp [linkOf, hs]
  · intro ls hls hno
    have hl := linkOf_arr item ls hls
    rw [find?_no_alternate ls hno] at hl
    have hnone : truthy (prop (none : Option JVal) "@_href") = false := rfl
    rw [jsOr_of_falsy _ _ hnone] at hl
    refine ⟨?_, ?_⟩
    · intro first h hfirst hh ht
      have hq : prop ls.head? "@_href" = some h := by rw [hfirst]; exact hh
      rw [hl, hq, jsOrD_of_truthy _ _ ht]
    · intro hno'
      rw [hl, jsOrD_of_falsy _ _ hno']
  · intro v hv hstr harr
    have hl := linkOf_other item (some v) hv
      (fun s h => hstr s (Option.some.inj h)) (fun ls h => harr ls (Option.some.inj h))
    refine ⟨?_, ?_⟩
    · intro h hh ht
      have hq : prop (some v) "@_href" = some h := hh
      rw [hl, hq, jsOrD_of_truthy _ _ ht]
    · intro hno
      have hq : truthy (prop (some v) "@_href") = false := hno
      rw [hl, jsOrD_of_falsy _ _ hq]
  · intro hnone
    have hl := linkOf_other item none hnone (fun s h => by cases h) (fun ls h => by cases h)
    rw [hl]
    rfl

/-- C20 at four entries: a plain link, a single `<link href="H"/>`, a
sequence of two links without `alternate`, and no link. -/
theorem C20_link_without_alternate_witness :
    linkOf (.obj [("link", .str (utf16 "https://example.org/1"))]) =
      .str (utf16 "https://example.org/1") ∧
    linkOf (.obj [("link", .obj [("@_href", .str (utf16 "H"))])]) = .str (utf16 "H") ∧
    linkOf (.obj [("link", .arr [linkElement "self" "A", linkElement "related" "C"])]) =
      .str (utf16 "A") ∧
    linkOf (.obj [("title", .str (utf16 "No link"))]) = .str [] := by
  refine ⟨?_, ?_, ?_, ?_⟩
  · exact (C20_link_without_alternate
      (.obj [("link", .str (utf16 "https://example.org/1"))])).1 _ rfl
  · exact ((C20_link_without_alternate
      (.obj [("link", .obj [("@_href", .str (utf16 "H"))])])).2.2.1
      (.obj [("@_href", .str (utf16 "H"))]) rfl
      (fun s h => by cases h) (fun ls h => by cases h)).1 _ rfl rfl
  · refine ((C20_link_without_alternate
      (.obj [("link", .arr [linkElement "self" "A", linkElement "related" "C"])])).2.1
      [linkElement "self" "A", linkElement "related" "C"] rfl ?_).1 _ _ rfl rfl rfl
    intro x hx h
    have hx' : x = linkElement "self" "A" ∨ x = linkElement "related" "C" := by
      simpa using hx
    rcases hx' with rfl | rfl
    · have h' : utf16 "self" = utf16 "alternate" := by
        injection h with h
        injection h
      exact absurd h' (by decide)
    · have h' : utf16 "related" = utf16 "alternate" := by
        injection h with h
        injection h
      exact absurd h' (by decide)
  · exact (C20_link_without_alternate (.obj [("title", .str (utf16 "No link"))])).2.2.2 rfl

/-- C21: for every list of n sources, when every fetch completes, the groups
formed by `fetchAllInBatches` are the consecutive slices `[0, 8)`, `[8, 16)`,
... of the list (member j of group k is source `8 * k + j`): there are
`ceil (n / 8)` groups, each non-empty and of at most 8 sources, each but the
last of exactly 8, and their concatenation is the list; there is one pause of
500 ms for every group but the last, made in the iteration of that group
after its fetches and before the next group, so `ceil (n / 8) - 1` pauses for
`n > 0` and none for `n = 0`. -/
theorem C21_groups_and_pauses (feedList : List SourceDescriptor)
    (env : Nat → Nat → AttemptOutcome) (order : Nat → List Nat)
    (hsettle : EveryFetchSettles feedList.length order) :
    ∃ run, fetchAllInBatches feedList env order = some run ∧
      run.batches = consecutiveSlices feedList ∧
      run.batches.length = (feedList.length + 7) / 8 ∧
      (∀ k g, run.batches[k]? = some g →
        g.length = min 8 (feedList.length - k * 8) ∧
        ∀ j, j < 8 → g[j]? = feedList[k * 8 + j]?) ∧
      (∀ g ∈ run.batches, g ≠ [] ∧ g.length ≤ 8) ∧
      (∀ k g, k + 1 < run.batches.length → run.batches[k]? = some g → g.length = 8) ∧
      run.batches.flatten = feedList ∧
      run.pauses = List.replicate ((feedList.length + 7) / 8 - 1) 500 ∧
      run.pauses = run.batches.dropLast.map (fun _ => 500) ∧
      (feedList.length = 0 → run.pauses = []) ∧
      (∀ (q : Nat) (acc : BatchRun), q * 8 < feedList.length →
        ∃ batchResults,
          batchLoop feedList env order (q * 8) acc =
            batchLoop feedList env order (q * 8 + 8)
              { results := acc.results ++ batchResults,
                batches := acc.batches ++ [slice feedList (q * 8) (q * 8 + 8)],
                pauses := if q * 8 + 8 < feedList.length then acc.pauses ++ [500]
                          else acc.pauses }) := by
  have hC : CONCURRENCY = 8 := rfl
  obtain ⟨run, hrun, _⟩ := fetchAllInBatches_results feedList env order hsettle
  have htrace := batchLoop_trace feedList env order feedList.length 0
    { results := [], batches := [], pauses := [] } run (by simp)
    (by simpa [fetchAllInBatches] using hrun)
  obtain ⟨hb, hp⟩ := htrace
  have hbatches : run.batches = consecutiveSlices feedList := by
    rw [hb, slicesFrom_zero]; rfl
  have hpauses : run.pauses = List.replicate ((feedList.length + 7) / 8 - 1) 500 := by
    rw [hp, hC]; rfl
  have hlen : run.batches.length = (feedList.length + 7) / 8 := by
    rw [hbatches, length_consecutiveSlices]
  have hget : ∀ k g, run.batches[k]? = some g → k < (feedList.length + 7) / 8 ∧
      g = slice feedList (k * 8) (k * 8 + 8) := by
    intro k g hk
    have hklt : k < (feedList.length + 7) / 8 := by
      rw [← hlen]
      by_contra hge
      rw [List.getElem?_eq_none (by omega)] at hk
      cases hk
    rw [hbatches, getElem?_consecutiveSlices feedList k hklt] at hk
    exact ⟨hklt, (Option.some.inj hk).symm⟩
  refine ⟨run, hrun, hbatches, hlen, ?_, ?_, ?_, ?_, hpauses, ?_, ?_, ?_⟩
  · intro k g hk
    obtain ⟨_, rfl⟩ := hget k g hk
    exact ⟨length_slice feedList (k * 8), fun j hj => getElem?_slice feedList (k * 8) j hj⟩
  · intro g hg
    obtain ⟨k, hk⟩ := List.mem_iff_getElem?.mp hg
    obtain ⟨hklt, rfl⟩ := hget k g hk
    have hl := length_slice feedList (k * 8)
    refine ⟨?_, by rw [hl]; exact Nat.min_le_left _ _⟩
    intro hnil
    rw [hnil] at hl
    simp only [List.length_nil] at hl
    omega
  · intro k g hk1 hk
    obtain ⟨_, rfl⟩ := hget k g hk
    rw [length_slice, hlen] at *
    omega
  · rw [hbatches, ← slicesFrom_zero, flatten_slicesFrom feedList feedList.length 0 (by simp)]
    simp
  · rw [hpauses, List.map_const', List.length_dropLast, hlen]
  · intro hzero
    rw [hpauses, hzero]
    rfl
  · intro q acc hlt
    exact batchLoop_step feedList env order hsettle q acc hlt

/-- C21 at ten sources: two groups, of 8 and 2 sources, and one pause. -/
theorem C21_groups_and_pauses_witness :
    ∃ run, fetchAllInBatches tenSources sampleEnv reverseOrder = some run ∧
      run.batches = [tenSources.take 8, tenSources.drop 8] ∧
      run.batches.length = 2 ∧
      run.batches.flatten = tenSources ∧
      run.pauses = [500] := by
  obtain ⟨run, hrun, hb, hlen, _, _, _, hflat, hp, _, _, _⟩ :=
    C21_groups_and_pauses tenSources sampleEnv reverseOrder reverseOrder_settles
  exact ⟨run, hrun, hb.trans rfl, hlen.trans rfl, hflat, hp.trans rfl⟩

end RSSFetch
